import Mathlib

/-!
Verification of the durationlint analyzer (pkg/analyzer/analyzer.go).

The analyzer walks Go syntax trees and reports uses of unit-less (untyped or
integer) values where a `time.Duration` is expected.  This file gives a shallow
embedding of the analyzer: the syntax-tree shapes the analyzer inspects, the
fragment of `go/types` information it consults, the pure classifier functions,
and the stateful context-stack traversal driven by `ast.Inspect`.

Modelling conventions:
* Go's `types.Type` values reachable from `TypesInfo.TypeOf` are modelled by
  `Option TypeV`: `none` is a nil `types.Type`; `TypeV` records the result of
  `typ.String()` and whether the type is a `*types.Basic` with integer info
  (the only two questions the analyzer asks of a type).
* Go panics (nil dereference, index out of range, explicit panic calls) are
  modelled as `Except.error` carrying the corresponding message.
* `ast.Ident.Obj.Decl` resolution is modelled by a name-indexed environment
  `declOf`; `none` models a nil `Obj` (whose dereference would panic).
* The node stack `improperDurationContextStack.slice` keeps its top at the
  HEAD of the Lean list (Go appends to the end of the slice).
-/

namespace DurationLint

/-- Result of `typ.String()` together with the `*types.Basic`/`IsInteger`
information used by `isIntegerType`. -/
structure TypeV where
  str : String
  isBasicInteger : Bool
deriving Repr, DecidableEq

/-- An `analysis.Diagnostic`: position and message. -/
structure Diagnostic where
  pos : Nat
  message : String
deriving Repr, DecidableEq

/-- Binary operator kinds distinguished by the analyzer
(`token.ADD`, `token.SUB`, `token.MUL`, anything else). -/
inductive BinOp where
  | add
  | sub
  | mul
  | otherOp
deriving Repr, DecidableEq

mutual
/-- The `go/ast` node shapes the analyzer distinguishes.  Every node records
the position returned by `Pos()`.  `selectorExpr` stores `X` and the `Sel`
identifier (an `*ast.Ident` by construction in `go/ast`).  `valueSpec` has an
optional type expression (`Type` may be nil), the name identifiers and the
initializer values.  `file` is the `*ast.File` root handed to `ast.Inspect`
(the package-name identifier child is omitted: visiting it only pushes and
pops an inert context).  `otherNode` stands for any other statement or
declaration node (`*ast.FuncDecl`, `*ast.BlockStmt`, `*ast.GenDecl`, ...),
which the traversal treats uniformly: push a context, visit the children, pop. -/
inductive Node where
  | basicLit (value : String) (pos : Nat)
  | ident (name : String) (pos : Nat)
  | binaryExpr (op : BinOp) (x y : Node) (pos : Nat)
  | parenExpr (x : Node) (pos : Nat)
  | selectorExpr (x : Node) (sel : Node) (pos : Nat)
  | callExpr (f : Node) (args : NodeList) (pos : Nat)
  | keyValueExpr (key value : Node) (pos : Nat)
  | compositeLit (ty : NodeOpt) (elts : NodeList) (pos : Nat)
  | assignStmt (lhs rhs : NodeList) (pos : Nat)
  | valueSpec (ty : NodeOpt) (names : NodeList) (values : NodeList) (pos : Nat)
  | exprStmt (x : Node) (pos : Nat)
  | file (decls : NodeList) (pos : Nat)
  | otherNode (children : NodeList) (pos : Nat)
/-- A list of child nodes (separate inductive so that structural recursion
over the tree stays within one mutual block). -/
inductive NodeList where
  | nil
  | cons (n : Node) (ns : NodeList)
/-- An optional node (a nilable `ast.Expr` field). -/
inductive NodeOpt where
  | none
  | some (n : Node)
end

/-- `Pos()` of a node. -/
def Node.pos : Node → Nat
  | .basicLit _ p => p
  | .ident _ p => p
  | .binaryExpr _ _ _ p => p
  | .parenExpr _ p => p
  | .selectorExpr _ _ p => p
  | .callExpr _ _ p => p
  | .keyValueExpr _ _ p => p
  | .compositeLit _ _ p => p
  | .assignStmt _ _ p => p
  | .valueSpec _ _ _ p => p
  | .exprStmt _ p => p
  | .file _ p => p
  | .otherNode _ p => p

/-- Whether the node is an `ast.Expr` (the type assertion `node.(ast.Expr)`
in `PushCurrent`). -/
def Node.isExpr : Node → Bool
  | .basicLit _ _ => true
  | .ident _ _ => true
  | .binaryExpr _ _ _ _ => true
  | .parenExpr _ _ => true
  | .selectorExpr _ _ _ => true
  | .callExpr _ _ _ => true
  | .keyValueExpr _ _ _ => true
  | .compositeLit _ _ _ => true
  | .assignStmt _ _ _ => false
  | .valueSpec _ _ _ _ => false
  | .exprStmt _ _ => false
  | .file _ _ => false
  | .otherNode _ _ => false

/-- Length of a node list (`len(v.Args)`). -/
def NodeList.length : NodeList → Nat
  | .nil => 0
  | .cons _ ns => ns.length + 1

/-- Positional lookup in a node list (Go slice indexing; `none` models the
out-of-range panic at the call sites that handle it). -/
def NodeList.get? : NodeList → Nat → Option Node
  | .nil, _ => Option.none
  | .cons n _, 0 => Option.some n
  | .cons _ ns, i + 1 => ns.get? i

/-- The declaration an identifier's `Obj.Decl` points to.  `valueSpec` is an
`*ast.ValueSpec` (a `var` or `const` specification): optional declared type,
the declared names, and the initializer expressions.  `assignDecl` is an
`*ast.AssignStmt` (a `:=` short variable declaration); `otherDecl` is any
other declaration form.  Only `valueSpec` passes the type assertion in
`hasIntOrUntypedConstDeclaration`. -/
inductive Decl where
  | valueSpec (ty : Option Node) (names : List String) (values : List Node)
  | assignDecl
  | otherDecl

/-- The fragment of `*analysis.Pass` the analyzer reads: `TypesInfo.TypeOf`
and identifier-to-declaration resolution (`ident.Obj.Decl`, flattened to a
name-indexed map; `none` models a nil `Obj`). -/
structure TypesInfoV where
  typeOf : Node → Option TypeV
  declOf : String → Option Decl

/-- `isDurationType`: checks if a type is `time.Duration` (nil types are not). -/
def isDurationType (typ : Option TypeV) : Bool :=
  match typ with
  | Option.none => false
  | Option.some t => t.str == "time.Duration"

/-- `isIntegerType`: checks if a type is a `*types.Basic` integer
(e.g. int64, int, int32, uint32); nil and non-basic types are not. -/
def isIntegerType (typ : Option TypeV) : Bool :=
  match typ with
  | Option.none => false
  | Option.some t => t.isBasicInteger

/-- `hasIntOrUntypedConstDeclaration`: resolves the identifier's declaration
and decides whether the identifier stands for an int-typed or untyped
constant-like value.  Declarations other than `*ast.ValueSpec` yield false; a
typed declaration whose type is not an integer yields false; otherwise the
identifier is located among the declared names (the source panics when it is
absent), its positionally matching initializer is fetched (Go indexes
`vSpec.Values[nameIdx]`, which panics when out of range), and the result is
whether that initializer's type is not `time.Duration`. -/
def hasIntOrUntypedConstDeclaration (ti : TypesInfoV) (name : String) :
    Except String Bool :=
  match ti.declOf name with
  | Option.none => .error "nil pointer dereference: identifier has nil Obj"
  | Option.some Decl.assignDecl => .ok false
  | Option.some Decl.otherDecl => .ok false
  | Option.some (Decl.valueSpec tyE names values) =>
    if (match tyE with
        | Option.some te => !isIntegerType (ti.typeOf te)
        | Option.none => false) then
      .ok false
    else
      match names.findIdx? (· == name) with
      | Option.none => .error "logic error: identifier not found in its declaration"
      | Option.some nameIdx =>
        match values.get? nameIdx with
        | Option.none => .error "runtime error: index out of range in Values"
        | Option.some v =>
          match ti.typeOf v with
          | Option.none => .error "nil pointer dereference: initializer has nil type"
          | Option.some vType => .ok (vType.str != "time.Duration")

/-- `usesIntOrUntypedConstants`: the recursive unit-less classifier.
A literal is unit-less unless its literal text is `0`; additions and
subtractions are unit-less when either operand is (Go's short-circuiting
`||`); multiplications when both operands are (short-circuiting `&&`);
identifiers defer to their declaration; parentheses are transparent; every
other expression shape is not unit-less. -/
def usesIntOrUntypedConstants (ti : TypesInfoV) : Node → Except String Bool
  | .basicLit v _ => .ok (v != "0")
  | .binaryExpr op x y _ =>
    match op with
    | .add | .sub => do
      let a ← usesIntOrUntypedConstants ti x
      if a then .ok true else usesIntOrUntypedConstants ti y
    | .mul => do
      let a ← usesIntOrUntypedConstants ti x
      if a then usesIntOrUntypedConstants ti y else .ok false
    | .otherOp => .ok false
  | .ident name _ => hasIntOrUntypedConstDeclaration ti name
  | .parenExpr x _ => usesIntOrUntypedConstants ti x
  | _ => .ok false

/-- `checkArgument`: flag a duration-typed call argument that uses
unit-less values. -/
def checkArgument (ti : TypesInfoV) (v : Node) : Except String (Option Diagnostic) :=
  if !isDurationType (ti.typeOf v) then .ok Option.none
  else do
    let u ← usesIntOrUntypedConstants ti v
    if !u then .ok Option.none
    else .ok (Option.some ⟨v.pos, "untyped constant in time.Duration argument"⟩)

/-- `checkDurationConversionArgument`: flag the argument of a
`time.Duration(...)` conversion when it is unit-less or integer-typed. -/
def checkDurationConversionArgument (ti : TypesInfoV) (arg : Node) :
    Except String (Option Diagnostic) := do
  let argType := ti.typeOf arg
  let implicitInt ← usesIntOrUntypedConstants ti arg
  let explicitInt := isIntegerType argType
  if !implicitInt && !explicitInt then .ok Option.none
  else
    .ok (Option.some ⟨arg.pos,
      "converting integer via time.Duration() without multiplication by proper duration"⟩)

/-- `checkAssignment`: flag the right-hand side of an assignment-shaped pair
whose left side resolves to `time.Duration` and whose right side uses
unit-less values. -/
def checkAssignment (ti : TypesInfoV) (l r : Node) : Except String (Option Diagnostic) :=
  match ti.typeOf l with
  | Option.none => .ok Option.none
  | Option.some lType =>
    if lType.str != "time.Duration" then .ok Option.none
    else do
      let u ← usesIntOrUntypedConstants ti r
      if !u then .ok Option.none
      else .ok (Option.some ⟨r.pos, "untyped constant in time.Duration assignment"⟩)

/-- `isDurationConversion`: recognizes `pkg.Duration(x)`-shaped calls.  The
callee must be a selector expression, the call must have exactly one argument,
and the selector's trailing identifier must be named `Duration`; the package
qualifier is deliberately not checked (import aliasing). -/
def isDurationConversion (f : Node) (args : NodeList) : Bool :=
  match f with
  | .selectorExpr _ sel _ =>
    if args.length != 1 then false
    else
      match sel with
      | .ident nm _ => nm == "Duration"
      | _ => false
  | _ => false

/-- An `improperDurationContext`: per-node resolution state.  The Go struct
also stores the `ast.Node` itself; only its position is kept here (the node is
never consulted after the push). -/
structure Ctx where
  nodePos : Nat
  isMultiplicationExpr : Bool
  isDurationType : Bool
  isImproperDurationNode : Bool
  hasProperDurationChild : Bool
  hasImproperDurationChild : Bool
  deferredImproperDurationDiagnostics : List Diagnostic
deriving Repr, DecidableEq

/-- `improperDurationContext.isImproperDuration`. -/
def Ctx.isImproperDuration (c : Ctx) : Bool :=
  c.isDurationType &&
    (c.isImproperDurationNode ||
      (c.hasImproperDurationChild && !c.isMultiplicationExpr) ||
      (c.hasImproperDurationChild && !c.hasProperDurationChild))

/-- `improperDurationContext.isProperDuration`. -/
def Ctx.isProperDuration (c : Ctx) : Bool :=
  c.isDurationType && !c.isImproperDuration

/-- The traversal state: the `improperDurationContextStack` (sentinel plus
slice of contexts, top of stack at the HEAD of the list) together with the
stream of diagnostics passed to `pass.Report` so far, in emission order. -/
structure TState where
  sentinel : Ctx
  stack : List Ctx
  reported : List Diagnostic
deriving Repr, DecidableEq

/-- The zero value of `improperDurationContext` (the sentinel's initial
state). -/
def emptyCtx : Ctx :=
  ⟨0, false, false, false, false, false, []⟩

/-- The initial traversal state for one file. -/
def initState : TState :=
  ⟨emptyCtx, [], []⟩

/-- `pass.Report`: append an emitted diagnostic, if any, to the stream. -/
def reportOpt (st : TState) (d : Option Diagnostic) : TState :=
  match d with
  | Option.none => st
  | Option.some diag => { st with reported := st.reported ++ [diag] }

/-- Whether a node is a binary multiplication expression (the
`isMultiplicationExpr` computation of `PushCurrent`: the node must be an
expression, a `*ast.BinaryExpr`, and its operator `token.MUL`). -/
def isMultOf (n : Node) : Bool :=
  match n with
  | .binaryExpr op _ _ _ => op == BinOp.mul
  | _ => false

/-- The fresh context `PushCurrent` builds for a node: `isMultiplicationExpr`
for binary `*` expressions, `isDurationType` from the node's resolved type
(`TypeOf` is consulted only for expressions). -/
def pushedCtx (ti : TypesInfoV) (n : Node) : Ctx :=
  ⟨n.pos, isMultOf n, n.isExpr && isDurationType (ti.typeOf n),
    false, false, false, []⟩

/-- `improperDurationContextStack.PushCurrent`. -/
def pushCurrent (ti : TypesInfoV) (st : TState) (n : Node) : TState :=
  { st with stack := pushedCtx ti n :: st.stack }

/-- Fold a popped context's resolution outcome into its parent (the flag
updates at the top of `PopCurrent`, plus the deferred-diagnostic forwarding of
the `default` branch, which applies when the popped context is an unresolved
multiplication). -/
def popResolve (current parent : Ctx) : Ctx :=
  let parent :=
    if current.isImproperDuration then
      { parent with hasImproperDurationChild := true }
    else parent
  let parent :=
    if current.isProperDuration then
      { parent with hasProperDurationChild := true }
    else parent
  if !current.isProperDuration && current.isMultiplicationExpr then
    { parent with deferredImproperDurationDiagnostics :=
        parent.deferredImproperDurationDiagnostics ++
          current.deferredImproperDurationDiagnostics }
  else parent

/-- The diagnostics `PopCurrent` reports immediately: the popped context's
deferred diagnostics, when it is neither resolved (proper) nor a
multiplication that could still be redeemed by an ancestor. -/
def popEmits (current : Ctx) : List Diagnostic :=
  if !current.isProperDuration && !current.isMultiplicationExpr then
    current.deferredImproperDurationDiagnostics
  else []

/-- `improperDurationContextStack.PopCurrent`: pop the top context, fold its
outcome into its parent (the next stack entry, or the sentinel when it is the
only entry), and either drop, report, or forward its deferred diagnostics.
Calling it on an empty stack indexes `slice[-1]` and panics. -/
def popCurrent (st : TState) : Except String TState :=
  match st.stack with
  | [] => .error "runtime error: index out of range in PopCurrent"
  | current :: rest =>
    match rest with
    | [] =>
      .ok { sentinel := popResolve current st.sentinel,
            stack := [],
            reported := st.reported ++ popEmits current }
    | parent :: ps =>
      .ok { sentinel := st.sentinel,
            stack := popResolve current parent :: ps,
            reported := st.reported ++ popEmits current }

/-- Append a deferred diagnostic to a context. -/
def addDeferred (c : Ctx) (d : Diagnostic) : Ctx :=
  { c with deferredImproperDurationDiagnostics :=
      c.deferredImproperDurationDiagnostics ++ [d] }

/-- `improperDurationContextStack.ReportImproperDurationNode`: mark the
current node as an improper duration and defer its diagnostic to the parent
context (the next stack entry, or the sentinel when the stack has one entry).
Calling it on an empty stack indexes `slice[-1]` and panics. -/
def reportImproperDurationNode (st : TState) (d : Diagnostic) :
    Except String TState :=
  match st.stack with
  | [] => .error "runtime error: index out of range in ReportImproperDurationNode"
  | current :: rest =>
    let current := { current with isImproperDurationNode := true }
    match rest with
    | [] => .ok { st with stack := [current], sentinel := addDeferred st.sentinel d }
    | parent :: ps => .ok { st with stack := current :: addDeferred parent d :: ps }

/-- `improperDurationContextStack.Finish`: re-submit the sentinel's leftover
deferred diagnostics through `ReportImproperDurationNode` (iterating over the
snapshot of the sentinel's list), then clear the sentinel's list. -/
def finishStack (st : TState) : Except String TState := do
  let st' ← st.sentinel.deferredImproperDurationDiagnostics.foldlM
    (fun s d => reportImproperDurationNode s d) st
  .ok { st' with sentinel :=
    { st'.sentinel with deferredImproperDurationDiagnostics := [] } }

/-- The per-pair loop of the `*ast.AssignStmt` case of `run`: Go iterates
over the indices of `Lhs` and indexes `Rhs[i]`, which panics when the
right-hand list is shorter (e.g. `a, b = f()`). -/
def checkAssignStmtPairs (ti : TypesInfoV) (st : TState) :
    NodeList → NodeList → Except String TState
  | .nil, _ => .ok st
  | .cons l ls, .cons r rs => do
    let d ← checkAssignment ti l r
    checkAssignStmtPairs ti (reportOpt st d) ls rs
  | .cons _ _, .nil => .error "runtime error: index out of range in Rhs"

/-- The per-argument loop of the non-conversion `*ast.CallExpr` case of
`run`. -/
def checkCallArgs (ti : TypesInfoV) (st : TState) :
    NodeList → Except String TState
  | .nil => .ok st
  | .cons a as => do
    let d ← checkArgument ti a
    checkCallArgs ti (reportOpt st d) as

/-- The per-value loop of the `*ast.ValueSpec` case of `run`: each
initializer is checked against the spec's type expression. -/
def checkValueSpecValues (ti : TypesInfoV) (st : TState) (te : Node) :
    NodeList → Except String TState
  | .nil => .ok st
  | .cons v vs => do
    let d ← checkAssignment ti te v
    checkValueSpecValues ti (reportOpt st d) te vs

mutual
/-- The `ast.Inspect` callback of `run`, combined with `ast.Walk`'s descent.
On entering a node its context is pushed; the callback's `switch` then runs
the node-kind checks.  When the callback returns true, the children are
visited in `ast.Walk` order and the node's context is popped as the traversal
leaves the node (`ast.Walk` calls the callback once more with `nil`, whose
deferred `PopCurrent` fires).  When the callback returns false — a recognized
conversion call with strict conversion mode disabled — `ast.Walk` neither
visits the children nor delivers the `nil` visit, so no pop happens for that
node. -/
def inspectNode (strict : Bool) (ti : TypesInfoV) (st : TState) :
    Node → Except String TState
  | .basicLit v p => do
    let st := pushCurrent ti st (.basicLit v p)
    popCurrent st
  | .ident nm p => do
    let st := pushCurrent ti st (.ident nm p)
    popCurrent st
  | .binaryExpr op x y p => do
    let st := pushCurrent ti st (.binaryExpr op x y p)
    let st ← inspectNode strict ti st x
    let st ← inspectNode strict ti st y
    popCurrent st
  | .parenExpr x p => do
    let st := pushCurrent ti st (.parenExpr x p)
    let st ← inspectNode strict ti st x
    popCurrent st
  | .selectorExpr x sel p => do
    let st := pushCurrent ti st (.selectorExpr x sel p)
    let st ← inspectNode strict ti st x
    let st ← inspectNode strict ti st sel
    popCurrent st
  | .callExpr f args p => do
    let st := pushCurrent ti st (.callExpr f args p)
    if isDurationConversion f args then
      if !strict then
        .ok st
      else
        match args with
        | .cons a .nil => do
          let d ← checkDurationConversionArgument ti a
          let st ← (match d with
            | Option.none => .ok st
            | Option.some diag => reportImproperDurationNode st diag)
          let st ← inspectNode strict ti st f
          let st ← inspectList strict ti st args
          popCurrent st
        | _ => .error "unreachable: recognized conversion without one argument"
    else do
      let st ← checkCallArgs ti st args
      let st ← inspectNode strict ti st f
      let st ← inspectList strict ti st args
      popCurrent st
  | .keyValueExpr k v p => do
    let st := pushCurrent ti st (.keyValueExpr k v p)
    let d ← checkAssignment ti k v
    let st := reportOpt st d
    let st ← inspectNode strict ti st k
    let st ← inspectNode strict ti st v
    popCurrent st
  | .compositeLit ty elts p => do
    let st := pushCurrent ti st (.compositeLit ty elts p)
    let st ← inspectOpt strict ti st ty
    let st ← inspectList strict ti st elts
    popCurrent st
  | .assignStmt lhs rhs p => do
    let st := pushCurrent ti st (.assignStmt lhs rhs p)
    let st ← checkAssignStmtPairs ti st lhs rhs
    let st ← inspectList strict ti st lhs
    let st ← inspectList strict ti st rhs
    popCurrent st
  | .valueSpec ty names values p => do
    let st := pushCurrent ti st (.valueSpec ty names values p)
    let st ← (match ty with
      | NodeOpt.none => .ok st
      | NodeOpt.some te => checkValueSpecValues ti st te values)
    let st ← inspectList strict ti st names
    let st ← inspectOpt strict ti st ty
    let st ← inspectList strict ti st values
    popCurrent st
  | .exprStmt x p => do
    let st := pushCurrent ti st (.exprStmt x p)
    let st ← inspectNode strict ti st x
    popCurrent st
  | .file decls p => do
    let st := pushCurrent ti st (.file decls p)
    let st ← inspectList strict ti st decls
    popCurrent st
  | .otherNode children p => do
    let st := pushCurrent ti st (.otherNode children p)
    let st ← inspectList strict ti st children
    popCurrent st
/-- Visit a list of children in order. -/
def inspectList (strict : Bool) (ti : TypesInfoV) (st : TState) :
    NodeList → Except String TState
  | .nil => .ok st
  | .cons n ns => do
    let st ← inspectNode strict ti st n
    inspectList strict ti st ns
/-- Visit an optional child. -/
def inspectOpt (strict : Bool) (ti : TypesInfoV) (st : TState) :
    NodeOpt → Except String TState
  | .none => .ok st
  | .some n => inspectNode strict ti st n
end

/-- One file's traversal: `ast.Inspect(file, ...)` with a fresh
`improperDurationContextStack`. -/
def traverseFile (strict : Bool) (ti : TypesInfoV) (f : Node) :
    Except String TState :=
  inspectNode strict ti initState f

/-- `run` restricted to a single file: traverse it, then run the
(function-exit deferred) `stack.Finish()`. -/
def runFileSt (strict : Bool) (ti : TypesInfoV) (f : Node) :
    Except String TState := do
  let st ← traverseFile strict ti f
  finishStack st

/-- The diagnostic stream `run` emits for one file. -/
def runFile (strict : Bool) (ti : TypesInfoV) (f : Node) :
    Except String (List Diagnostic) :=
  (runFileSt strict ti f).map (fun st => st.reported)

/-- The number of contexts left on the stack after one file's analysis. -/
def stackLenAfter (strict : Bool) (ti : TypesInfoV) (f : Node) :
    Except String Nat :=
  (runFileSt strict ti f).map (fun st => st.stack.length)

end DurationLint

namespace DurationLint

/-! ### Basic facts about the stack primitives -/

theorem popResolve_isMult (c p : Ctx) :
    (popResolve c p).isMultiplicationExpr = p.isMultiplicationExpr := by
  unfold popResolve
  repeat' split
  all_goals rfl

theorem popResolve_deferred_of_not_mul (c p : Ctx)
    (h : c.isMultiplicationExpr = false) :
    (popResolve c p).deferredImproperDurationDiagnostics =
      p.deferredImproperDurationDiagnostics := by
  unfold popResolve
  rw [h]
  repeat' split
  all_goals first
  | rfl
  | simp_all

theorem addDeferred_isMult (c : Ctx) (d : Diagnostic) :
    (addDeferred c d).isMultiplicationExpr = c.isMultiplicationExpr := rfl

theorem reportOpt_stack (st : TState) (d : Option Diagnostic) :
    (reportOpt st d).stack = st.stack := by
  cases d <;> rfl

theorem reportOpt_sentinel (st : TState) (d : Option Diagnostic) :
    (reportOpt st d).sentinel = st.sentinel := by
  cases d <;> rfl

theorem checkCallArgs_frame (ti : TypesInfoV) :
    ∀ (args : NodeList) (st st' : TState), checkCallArgs ti st args = .ok st' →
      st'.stack = st.stack ∧ st'.sentinel = st.sentinel
  | .nil => by
    intro st st' h
    simp only [checkCallArgs] at h
    cases h
    exact ⟨rfl, rfl⟩
  | .cons a as => by
    intro st st' h
    simp only [checkCallArgs, bind, Except.bind] at h
    cases hd : checkArgument ti a with
    | error e => rw [hd] at h; simp at h
    | ok d =>
      rw [hd] at h
      have := checkCallArgs_frame ti as (reportOpt st d) st' h
      rw [reportOpt_stack, reportOpt_sentinel] at this
      exact this

theorem checkValueSpecValues_frame (ti : TypesInfoV) (te : Node) :
    ∀ (values : NodeList) (st st' : TState),
      checkValueSpecValues ti st te values = .ok st' →
      st'.stack = st.stack ∧ st'.sentinel = st.sentinel
  | .nil => by
    intro st st' h
    simp only [checkValueSpecValues] at h
    cases h
    exact ⟨rfl, rfl⟩
  | .cons v vs => by
    intro st st' h
    simp only [checkValueSpecValues, bind, Except.bind] at h
    cases hd : checkAssignment ti te v with
    | error e => rw [hd] at h; simp at h
    | ok d =>
      rw [hd] at h
      have := checkValueSpecValues_frame ti te vs (reportOpt st d) st' h
      rw [reportOpt_stack, reportOpt_sentinel] at this
      exact this

theorem checkAssignStmtPairs_frame (ti : TypesInfoV) :
    ∀ (lhs rhs : NodeList) (st st' : TState),
      checkAssignStmtPairs ti st lhs rhs = .ok st' →
      st'.stack = st.stack ∧ st'.sentinel = st.sentinel
  | .nil => by
    intro rhs st st' h
    simp only [checkAssignStmtPairs] at h
    cases h
    exact ⟨rfl, rfl⟩
  | .cons l ls => by
    intro rhs st st' h
    cases rhs with
    | nil =>
      simp only [checkAssignStmtPairs] at h
      simp at h
    | cons r rs =>
      simp only [checkAssignStmtPairs, bind, Except.bind] at h
      cases hd : checkAssignment ti l r with
      | error e => rw [hd] at h; simp at h
      | ok d =>
        rw [hd] at h
        have := checkAssignStmtPairs_frame ti ls rs (reportOpt st d) st' h
        rw [reportOpt_stack, reportOpt_sentinel] at this
        exact this

end DurationLint
namespace DurationLint

/-! ### The stack discipline invariant

`NetStep strict st st'` captures the net effect one `ast.Inspect` visit of a
node has on the context stack: when the traversal enters a node with stack
`c :: rest`, everything strictly below the entry head `c` is untouched, `c`
itself may only have its flags and deferred list updated (never its
`isMultiplicationExpr`), the sentinel is untouched, and in strict conversion
mode the stack length is restored exactly (in non-strict mode, skipped
conversion calls may leave extra never-popped contexts above `c`). -/

def NetStep (strict : Bool) (st st' : TState) : Prop :=
  ∀ c rest, st.stack = c :: rest →
    st'.sentinel = st.sentinel ∧
    ∃ pre c', st'.stack = pre ++ c' :: rest ∧
      c'.isMultiplicationExpr = c.isMultiplicationExpr ∧
      (strict = true → pre = [])

theorem netStep_frame (strict : Bool) {st st' : TState}
    (hstk : st'.stack = st.stack) (hsent : st'.sentinel = st.sentinel) :
    NetStep strict st st' := by
  intro c rest h
  refine ⟨hsent, [], c, ?_, rfl, fun _ => rfl⟩
  rw [hstk, h]
  rfl

theorem netStep_extend (strict : Bool) {st st' : TState}
    (hstep : NetStep strict st st') (p tail : List Ctx) (hne : p ≠ [])
    (hst : st.stack = p ++ tail) :
    st'.sentinel = st.sentinel ∧
    ∃ p', p' ≠ [] ∧ st'.stack = p' ++ tail ∧
      (strict = true → p'.length = p.length) := by
  cases p with
  | nil => exact absurd rfl hne
  | cons h0 hs =>
    obtain ⟨hsent, pre, c', hstk, _, hstrict⟩ :=
      hstep h0 (hs ++ tail) (by rw [hst]; rfl)
    refine ⟨hsent, pre ++ c' :: hs, by simp, ?_, ?_⟩
    · rw [hstk]
      simp
    · intro hs'
      rw [hstrict hs']
      simp

/-- The state shape maintained between the push of a node's context and the
corresponding pop, while the node's children are visited: the sentinel is the
original one, the stack is some nonempty prefix atop the fixed `tail` (in
strict mode a single context). -/
def MidState (strict : Bool) (sent : Ctx) (tail : List Ctx) (st : TState) : Prop :=
  st.sentinel = sent ∧ ∃ p, p ≠ [] ∧ st.stack = p ++ tail ∧
    (strict = true → p.length = 1)

theorem midState_start (strict : Bool) (sent : Ctx) (c0 : Ctx)
    (tail : List Ctx) (st : TState) (hsent : st.sentinel = sent)
    (hstk : st.stack = c0 :: tail) : MidState strict sent tail st :=
  ⟨hsent, [c0], by simp, by rw [hstk]; rfl, fun _ => rfl⟩

theorem midState_step (strict : Bool) (sent : Ctx) (tail : List Ctx)
    {st st' : TState} (hmid : MidState strict sent tail st)
    (hstep : NetStep strict st st') : MidState strict sent tail st' := by
  obtain ⟨hsent, p, hne, hstk, hlen⟩ := hmid
  obtain ⟨hsent', p', hne', hstk', hlen'⟩ :=
    netStep_extend strict hstep p tail hne hstk
  exact ⟨by rw [hsent', hsent], p', hne', hstk',
    fun hs => by rw [hlen' hs, hlen hs]⟩

theorem midState_frame (strict : Bool) (sent : Ctx) (tail : List Ctx)
    {st st' : TState} (hmid : MidState strict sent tail st)
    (hstk : st'.stack = st.stack) (hsent : st'.sentinel = st.sentinel) :
    MidState strict sent tail st' := by
  obtain ⟨h1, p, h2, h3, h4⟩ := hmid
  exact ⟨by rw [hsent, h1], p, h2, by rw [hstk, h3], h4⟩

/-- Finishing a node visit: popping from any `MidState` over `cT :: rest`
yields the `NetStep` conclusion relative to `rest`, with the surviving
context's `isMultiplicationExpr` that of `cT`. -/
theorem midState_pop (strict : Bool) (sent : Ctx) (cT : Ctx) (rest : List Ctx)
    {stMid st' : TState} (hmid : MidState strict sent (cT :: rest) stMid)
    (hpop : popCurrent stMid = .ok st') :
    st'.sentinel = sent ∧
    ∃ pre2 c2, st'.stack = pre2 ++ c2 :: rest ∧
      c2.isMultiplicationExpr = cT.isMultiplicationExpr ∧
      (strict = true → pre2 = []) := by
  obtain ⟨hsent, p, hne, hstk, hlen⟩ := hmid
  cases p with
  | nil => exact absurd rfl hne
  | cons q qs =>
    cases qs with
    | nil =>
      unfold popCurrent at hpop
      rw [hstk] at hpop
      simp only [List.cons_append, List.nil_append] at hpop
      cases hpop
      refine ⟨hsent, [], popResolve q cT, rfl, popResolve_isMult q cT,
        fun _ => rfl⟩
    | cons q2 qs2 =>
      unfold popCurrent at hpop
      rw [hstk] at hpop
      simp only [List.cons_append] at hpop
      cases hpop
      refine ⟨hsent, popResolve q q2 :: qs2, cT, by simp, rfl, ?_⟩
      intro hs
      have := hlen hs
      simp at this

end DurationLint
namespace DurationLint

theorem pushCurrent_stack (ti : TypesInfoV) (st : TState) (n : Node) :
    (pushCurrent ti st n).stack = pushedCtx ti n :: st.stack := rfl

theorem pushCurrent_sentinel (ti : TypesInfoV) (st : TState) (n : Node) :
    (pushCurrent ti st n).sentinel = st.sentinel := rfl

theorem reportImproperDurationNode_shape (st : TState) (d : Diagnostic)
    (a b : Ctx) (ps : List Ctx) (hstk : st.stack = a :: b :: ps) :
    reportImproperDurationNode st d =
      .ok { st with stack :=
        { a with isImproperDurationNode := true } :: addDeferred b d :: ps } := by
  unfold reportImproperDurationNode
  rw [hstk]

end DurationLint
namespace DurationLint

theorem netStep_trans (strict : Bool) {st1 st2 st3 : TState}
    (h12 : NetStep strict st1 st2) (h23 : NetStep strict st2 st3) :
    NetStep strict st1 st3 := by
  intro c rest h1
  obtain ⟨hs12, pre, c', hstk2, hm, hpre⟩ := h12 c rest h1
  cases pre with
  | nil =>
    obtain ⟨hs23, pre2, c2, hstk3, hm2, hpre2⟩ :=
      h23 c' rest (by rw [hstk2]; rfl)
    exact ⟨by rw [hs23, hs12], pre2, c2, hstk3, by rw [hm2, hm], hpre2⟩
  | cons g gs =>
    obtain ⟨hs23, p', hne', hstk3, _⟩ :=
      netStep_extend strict h23 (g :: gs) (c' :: rest) (by simp) hstk2
    refine ⟨by rw [hs23, hs12], p', c', hstk3, hm, ?_⟩
    intro hs
    have := hpre hs
    simp at this

end DurationLint
namespace DurationLint

/-- Inversion for a successful `Except` bind. -/
theorem exceptBind_ok {ε α β : Type} {x : Except ε α} {f : α → Except ε β}
    {b : β} (h : (x >>= f) = .ok b) : ∃ a, x = .ok a ∧ f a = .ok b := by
  cases x with
  | error e => simp [bind, Except.bind] at h
  | ok a =>
    refine ⟨a, rfl, ?_⟩
    simpa [bind, Except.bind] using h

end DurationLint
namespace DurationLint

mutual
/-- Every successful visit of a node respects the stack discipline `NetStep`. -/
theorem inspectNode_netStep (strict : Bool) (ti : TypesInfoV) :
    ∀ (n : Node) (st st' : TState), inspectNode strict ti st n = .ok st' →
      NetStep strict st st'
  | .basicLit v p => by
    intro st st' h c rest hst
    simp only [inspectNode] at h
    exact midState_pop strict st.sentinel c rest
      (midState_start strict st.sentinel (pushedCtx ti (.basicLit v p)) (c :: rest)
        (pushCurrent ti st (.basicLit v p)) rfl (by rw [pushCurrent_stack, hst])) h
  | .ident nm p => by
    intro st st' h c rest hst
    simp only [inspectNode] at h
    exact midState_pop strict st.sentinel c rest
      (midState_start strict st.sentinel (pushedCtx ti (.ident nm p)) (c :: rest)
        (pushCurrent ti st (.ident nm p)) rfl (by rw [pushCurrent_stack, hst])) h
  | .binaryExpr op x y p => by
    intro st st' h c rest hst
    simp only [inspectNode] at h
    obtain ⟨st1, h1, h⟩ := exceptBind_ok h
    obtain ⟨st2, h2, h⟩ := exceptBind_ok h
    have hmid0 := midState_start strict st.sentinel
      (pushedCtx ti (.binaryExpr op x y p)) (c :: rest)
      (pushCurrent ti st (.binaryExpr op x y p)) rfl (by rw [pushCurrent_stack, hst])
    have hmid1 := midState_step strict _ _ hmid0 (inspectNode_netStep strict ti x _ _ h1)
    have hmid2 := midState_step strict _ _ hmid1 (inspectNode_netStep strict ti y _ _ h2)
    exact midState_pop strict st.sentinel c rest hmid2 h
  | .parenExpr x p => by
    intro st st' h c rest hst
    simp only [inspectNode] at h
    obtain ⟨st1, h1, h⟩ := exceptBind_ok h
    have hmid0 := midState_start strict st.sentinel (pushedCtx ti (.parenExpr x p))
      (c :: rest) (pushCurrent ti st (.parenExpr x p)) rfl
      (by rw [pushCurrent_stack, hst])
    have hmid1 := midState_step strict _ _ hmid0 (inspectNode_netStep strict ti x _ _ h1)
    exact midState_pop strict st.sentinel c rest hmid1 h
  | .selectorExpr x sel p => by
    intro st st' h c rest hst
    simp only [inspectNode] at h
    obtain ⟨st1, h1, h⟩ := exceptBind_ok h
    obtain ⟨st2, h2, h⟩ := exceptBind_ok h
    have hmid0 := midState_start strict st.sentinel
      (pushedCtx ti (.selectorExpr x sel p)) (c :: rest)
      (pushCurrent ti st (.selectorExpr x sel p)) rfl (by rw [pushCurrent_stack, hst])
    have hmid1 := midState_step strict _ _ hmid0 (inspectNode_netStep strict ti x _ _ h1)
    have hmid2 := midState_step strict _ _ hmid1
      (inspectNode_netStep strict ti sel _ _ h2)
    exact midState_pop strict st.sentinel c rest hmid2 h
  | .callExpr f args p => by
    intro st st' h c rest hst
    simp only [inspectNode] at h
    by_cases hcv : isDurationConversion f args = true
    · rw [if_pos hcv] at h
      by_cases hstrict : strict = true
      · rw [if_neg (show ¬(!strict) = true by rw [hstrict]; simp)] at h
        cases args with
        | nil => simp at h
        | cons a args' =>
          cases args' with
          | cons b args'' => simp at h
          | nil =>
            obtain ⟨d, hd, h⟩ := exceptBind_ok h
            cases d with
            | none =>
              obtain ⟨stR, hR, h⟩ := exceptBind_ok h
              have hR' : (Except.ok (pushCurrent ti st (.callExpr f (.cons a .nil) p)) :
                  Except String TState) = .ok stR := hR
              cases hR'
              obtain ⟨st1, h1', h⟩ := exceptBind_ok h
              obtain ⟨st2, h2, h⟩ := exceptBind_ok h
              have hmid0 := midState_start strict st.sentinel
                (pushedCtx ti (.callExpr f (.cons a .nil) p)) (c :: rest)
                (pushCurrent ti st (.callExpr f (.cons a .nil) p)) rfl
                (by rw [pushCurrent_stack, hst])
              have hmid1 := midState_step strict _ _ hmid0
                (inspectNode_netStep strict ti f _ _ h1')
              have hmid2 := midState_step strict _ _ hmid1
                (inspectList_netStep strict ti (.cons a .nil) _ _ h2)
              exact midState_pop strict st.sentinel c rest hmid2 h
            | some diag =>
              obtain ⟨stR, hR, h⟩ := exceptBind_ok h
              have hRx : reportImproperDurationNode
                  (pushCurrent ti st (.callExpr f (.cons a .nil) p)) diag =
                  .ok stR := hR
              rw [reportImproperDurationNode_shape
                (pushCurrent ti st (.callExpr f (.cons a .nil) p)) diag
                (pushedCtx ti (.callExpr f (.cons a .nil) p)) c rest
                (by rw [pushCurrent_stack, hst])] at hRx
              cases hRx
              obtain ⟨st1, h1, h⟩ := exceptBind_ok h
              obtain ⟨st2, h2, h⟩ := exceptBind_ok h
              have hmid0 : MidState strict st.sentinel (addDeferred c diag :: rest)
                  { pushCurrent ti st (.callExpr f (.cons a .nil) p) with
                    stack := { pushedCtx ti (.callExpr f (.cons a .nil) p) with
                        isImproperDurationNode := true } ::
                      addDeferred c diag :: rest } :=
                midState_start strict st.sentinel _ (addDeferred c diag :: rest) _
                  rfl rfl
              have hmid1 := midState_step strict _ _ hmid0
                (inspectNode_netStep strict ti f _ _ h1)
              have hmid2 := midState_step strict _ _ hmid1
                (inspectList_netStep strict ti (.cons a .nil) _ _ h2)
              obtain ⟨hs, pre2, c2, hstk2, hm2, hp2⟩ :=
                midState_pop strict st.sentinel (addDeferred c diag) rest hmid2 h
              exact ⟨hs, pre2, c2, hstk2, by rw [hm2, addDeferred_isMult], hp2⟩
      · have hf : strict = false := by
          cases strict
          · rfl
          · exact absurd rfl hstrict
        rw [if_pos (show (!strict) = true by rw [hf]; rfl)] at h
        cases h
        refine ⟨rfl, [pushedCtx ti (.callExpr f args p)], c, ?_, rfl, ?_⟩
        · rw [pushCurrent_stack, hst]; rfl
        · intro hs; exact absurd hs hstrict
    · rw [if_neg hcv] at h
      obtain ⟨stA, hargs, h⟩ := exceptBind_ok h
      obtain ⟨st1, h1, h⟩ := exceptBind_ok h
      obtain ⟨st2, h2, h⟩ := exceptBind_ok h
      have hmid0 := midState_start strict st.sentinel
        (pushedCtx ti (.callExpr f args p)) (c :: rest)
        (pushCurrent ti st (.callExpr f args p)) rfl (by rw [pushCurrent_stack, hst])
      obtain ⟨hfs, hfsent⟩ := checkCallArgs_frame ti args _ _ hargs
      have hmidA := midState_frame strict _ _ hmid0 hfs hfsent
      have hmid1 := midState_step strict _ _ hmidA
        (inspectNode_netStep strict ti f _ _ h1)
      have hmid2 := midState_step strict _ _ hmid1
        (inspectList_netStep strict ti args _ _ h2)
      exact midState_pop strict st.sentinel c rest hmid2 h
  | .keyValueExpr k v p => by
    intro st st' h c rest hst
    simp only [inspectNode] at h
    obtain ⟨d, hd, h⟩ := exceptBind_ok h
    obtain ⟨st1, h1, h⟩ := exceptBind_ok h
    obtain ⟨st2, h2, h⟩ := exceptBind_ok h
    have hmid0 := midState_start strict st.sentinel
      (pushedCtx ti (.keyValueExpr k v p)) (c :: rest)
      (pushCurrent ti st (.keyValueExpr k v p)) rfl (by rw [pushCurrent_stack, hst])
    have hmidR := midState_frame strict _ _ hmid0 (reportOpt_stack _ d)
      (reportOpt_sentinel _ d)
    have hmid1 := midState_step strict _ _ hmidR
      (inspectNode_netStep strict ti k _ _ h1)
    have hmid2 := midState_step strict _ _ hmid1
      (inspectNode_netStep strict ti v _ _ h2)
    exact midState_pop strict st.sentinel c rest hmid2 h
  | .compositeLit ty elts p => by
    intro st st' h c rest hst
    simp only [inspectNode] at h
    obtain ⟨st1, h1, h⟩ := exceptBind_ok h
    obtain ⟨st2, h2, h⟩ := exceptBind_ok h
    have hmid0 := midState_start strict st.sentinel
      (pushedCtx ti (.compositeLit ty elts p)) (c :: rest)
      (pushCurrent ti st (.compositeLit ty elts p)) rfl
      (by rw [pushCurrent_stack, hst])
    have hmid1 := midState_step strict _ _ hmid0
      (inspectOpt_netStep strict ti ty _ _ h1)
    have hmid2 := midState_step strict _ _ hmid1
      (inspectList_netStep strict ti elts _ _ h2)
    exact midState_pop strict st.sentinel c rest hmid2 h
  | .assignStmt lhs rhs p => by
    intro st st' h c rest hst
    simp only [inspectNode] at h
    obtain ⟨stA, hpairs, h⟩ := exceptBind_ok h
    obtain ⟨st1, h1, h⟩ := exceptBind_ok h
    obtain ⟨st2, h2, h⟩ := exceptBind_ok h
    have hmid0 := midState_start strict st.sentinel
      (pushedCtx ti (.assignStmt lhs rhs p)) (c :: rest)
      (pushCurrent ti st (.assignStmt lhs rhs p)) rfl
      (by rw [pushCurrent_stack, hst])
    obtain ⟨hfs, hfsent⟩ := checkAssignStmtPairs_frame ti lhs rhs _ _ hpairs
    have hmidA := midState_frame strict _ _ hmid0 hfs hfsent
    have hmid1 := midState_step strict _ _ hmidA
      (inspectList_netStep strict ti lhs _ _ h1)
    have hmid2 := midState_step strict _ _ hmid1
      (inspectList_netStep strict ti rhs _ _ h2)
    exact midState_pop strict st.sentinel c rest hmid2 h
  | .valueSpec ty names values p => by
    intro st st' h c rest hst
    simp only [inspectNode] at h
    obtain ⟨stA, hv, h⟩ := exceptBind_ok h
    obtain ⟨st1, h1, h⟩ := exceptBind_ok h
    obtain ⟨st2, h2, h⟩ := exceptBind_ok h
    obtain ⟨st3, h3, h⟩ := exceptBind_ok h
    have hmid0 := midState_start strict st.sentinel
      (pushedCtx ti (.valueSpec ty names values p)) (c :: rest)
      (pushCurrent ti st (.valueSpec ty names values p)) rfl
      (by rw [pushCurrent_stack, hst])
    have hmidA : MidState strict st.sentinel (c :: rest) stA := by
      cases ty with
      | none =>
        have hv' : (Except.ok (pushCurrent ti st (.valueSpec .none names values p)) :
            Except String TState) = .ok stA := hv
        cases hv'
        exact hmid0
      | some te =>
        have hv' : checkValueSpecValues ti
            (pushCurrent ti st (.valueSpec (.some te) names values p)) te values =
            .ok stA := hv
        obtain ⟨hfs, hfsent⟩ := checkValueSpecValues_frame ti te values _ _ hv'
        exact midState_frame strict _ _ hmid0 hfs hfsent
    have hmid1 := midState_step strict _ _ hmidA
      (inspectList_netStep strict ti names _ _ h1)
    have hmid2 := midState_step strict _ _ hmid1
      (inspectOpt_netStep strict ti ty _ _ h2)
    have hmid3 := midState_step strict _ _ hmid2
      (inspectList_netStep strict ti values _ _ h3)
    exact midState_pop strict st.sentinel c rest hmid3 h
  | .exprStmt x p => by
    intro st st' h c rest hst
    simp only [inspectNode] at h
    obtain ⟨st1, h1, h⟩ := exceptBind_ok h
    have hmid0 := midState_start strict st.sentinel (pushedCtx ti (.exprStmt x p))
      (c :: rest) (pushCurrent ti st (.exprStmt x p)) rfl
      (by rw [pushCurrent_stack, hst])
    have hmid1 := midState_step strict _ _ hmid0
      (inspectNode_netStep strict ti x _ _ h1)
    exact midState_pop strict st.sentinel c rest hmid1 h
  | .file decls p => by
    intro st st' h c rest hst
    simp only [inspectNode] at h
    obtain ⟨st1, h1, h⟩ := exceptBind_ok h
    have hmid0 := midState_start strict st.sentinel (pushedCtx ti (.file decls p))
      (c :: rest) (pushCurrent ti st (.file decls p)) rfl
      (by rw [pushCurrent_stack, hst])
    have hmid1 := midState_step strict _ _ hmid0
      (inspectList_netStep strict ti decls _ _ h1)
    exact midState_pop strict st.sentinel c rest hmid1 h
  | .otherNode children p => by
    intro st st' h c rest hst
    simp only [inspectNode] at h
    obtain ⟨st1, h1, h⟩ := exceptBind_ok h
    have hmid0 := midState_start strict st.sentinel (pushedCtx ti (.otherNode children p))
      (c :: rest) (pushCurrent ti st (.otherNode children p)) rfl
      (by rw [pushCurrent_stack, hst])
    have hmid1 := midState_step strict _ _ hmid0
      (inspectList_netStep strict ti children _ _ h1)
    exact midState_pop strict st.sentinel c rest hmid1 h
/-- Every successful visit of a list of children respects `NetStep`. -/
theorem inspectList_netStep (strict : Bool) (ti : TypesInfoV) :
    ∀ (ns : NodeList) (st st' : TState), inspectList strict ti st ns = .ok st' →
      NetStep strict st st'
  | .nil => by
    intro st st' h
    simp only [inspectList] at h
    cases h
    exact netStep_frame strict rfl rfl
  | .cons n ns => by
    intro st st' h
    simp only [inspectList] at h
    obtain ⟨st1, h1, h⟩ := exceptBind_ok h
    exact netStep_trans strict (inspectNode_netStep strict ti n _ _ h1)
      (inspectList_netStep strict ti ns _ _ h)
/-- Every successful visit of an optional child respects `NetStep`. -/
theorem inspectOpt_netStep (strict : Bool) (ti : TypesInfoV) :
    ∀ (no : NodeOpt) (st st' : TState), inspectOpt strict ti st no = .ok st' →
      NetStep strict st st'
  | .none => by
    intro st st' h
    simp only [inspectOpt] at h
    cases h
    exact netStep_frame strict rfl rfl
  | .some n => by
    intro st st' h
    simp only [inspectOpt] at h
    exact inspectNode_netStep strict ti n _ _ h
end

end DurationLint
namespace DurationLint

/-- In strict conversion mode every node visit restores the stack exactly:
the entry stack's length (and everything below the entry head) is recovered
when the traversal leaves the node, and the sentinel is untouched. -/
theorem inspectNode_strict_balanced (ti : TypesInfoV) (n : Node)
    (st st' : TState) (c : Ctx) (rest : List Ctx) (hst : st.stack = c :: rest)
    (h : inspectNode true ti st n = .ok st') :
    st'.stack.length = st.stack.length ∧ st'.sentinel = st.sentinel := by
  obtain ⟨hsent, pre, c', hstk, _, hpre⟩ :=
    inspectNode_netStep true ti n st st' h c rest hst
  rw [hpre rfl] at hstk
  rw [hstk, hst]
  exact ⟨rfl, hsent⟩

/-- After traversing a whole file, the sentinel context holds no deferred
diagnostics, in either mode. -/
theorem traverseFile_sentinel_empty (strict : Bool) (ti : TypesInfoV)
    (decls : NodeList) (p : Nat) (st' : TState)
    (h : traverseFile strict ti (.file decls p) = .ok st') :
    st'.sentinel.deferredImproperDurationDiagnostics = [] := by
  unfold traverseFile at h
  simp only [inspectNode] at h
  obtain ⟨st1, h1, h⟩ := exceptBind_ok h
  have hnet := inspectList_netStep strict ti decls _ _ h1
  obtain ⟨hsent, pre, c', hstk, hm, _⟩ :=
    hnet (pushedCtx ti (.file decls p)) [] rfl
  have hsent0 : st1.sentinel = emptyCtx := hsent
  have hm0 : c'.isMultiplicationExpr = false := hm
  cases pre with
  | nil =>
    unfold popCurrent at h
    rw [hstk] at h
    simp only [List.nil_append] at h
    cases h
    show (popResolve c' st1.sentinel).deferredImproperDurationDiagnostics = []
    rw [popResolve_deferred_of_not_mul c' st1.sentinel hm0, hsent0]
    rfl
  | cons g gs =>
    unfold popCurrent at h
    rw [hstk] at h
    simp only [List.cons_append] at h
    cases hgs : gs ++ c' :: ([] : List Ctx) with
    | nil => simp at hgs
    | cons q qs =>
      rw [hgs] at h
      cases h
      show st1.sentinel.deferredImproperDurationDiagnostics = []
      rw [hsent0]
      rfl

/-- Finalization on an empty sentinel list is a no-op success. -/
theorem finishStack_of_empty (st : TState)
    (h : st.sentinel.deferredImproperDurationDiagnostics = []) :
    finishStack st = .ok { st with sentinel :=
      { st.sentinel with deferredImproperDurationDiagnostics := [] } } := by
  unfold finishStack
  rw [h]
  rfl

end DurationLint
namespace DurationLint

/-! ### Pointwise evaluation lemmas for traversal steps

These compute the exact effect of visiting simple subtrees (literals,
identifiers, selectors of identifiers, bare conversion calls) with a symbolic
`TypesInfoV`, which is how the strict-mode deferral scenarios are analysed. -/

/-- Update a parent context when a proper-duration child was popped. -/
def bumpProp (b : Bool) (q : Ctx) : Ctx :=
  if b then { q with hasProperDurationChild := true } else q

theorem bumpProp_false (q : Ctx) : bumpProp false q = q := rfl

theorem bumpProp_isMult (b : Bool) (q : Ctx) :
    (bumpProp b q).isMultiplicationExpr = q.isMultiplicationExpr := by
  cases b <;> rfl

theorem bumpProp_isDur (b : Bool) (q : Ctx) :
    (bumpProp b q).isDurationType = q.isDurationType := by
  cases b <;> rfl

theorem bumpProp_impNode (b : Bool) (q : Ctx) :
    (bumpProp b q).isImproperDurationNode = q.isImproperDurationNode := by
  cases b <;> rfl

theorem bumpProp_impChild (b : Bool) (q : Ctx) :
    (bumpProp b q).hasImproperDurationChild = q.hasImproperDurationChild := by
  cases b <;> rfl

theorem bumpProp_deferred (b : Bool) (q : Ctx) :
    (bumpProp b q).deferredImproperDurationDiagnostics =
      q.deferredImproperDurationDiagnostics := by
  cases b <;> rfl

theorem isImproper_of_no_imp (c : Ctx) (h1 : c.isImproperDurationNode = false)
    (h2 : c.hasImproperDurationChild = false) : c.isImproperDuration = false := by
  simp [Ctx.isImproperDuration, h1, h2]

theorem isProper_of_no_imp (c : Ctx) (h1 : c.isImproperDurationNode = false)
    (h2 : c.hasImproperDurationChild = false) :
    c.isProperDuration = c.isDurationType := by
  simp [Ctx.isProperDuration, isImproper_of_no_imp c h1 h2]

theorem popEmits_of_deferred_nil (c : Ctx)
    (h : c.deferredImproperDurationDiagnostics = []) : popEmits c = [] := by
  unfold popEmits
  rw [h]
  split <;> rfl

theorem popResolve_clean (c q : Ctx) (himp : c.isImproperDuration = false)
    (hdef : c.deferredImproperDurationDiagnostics = []) :
    popResolve c q = bumpProp c.isProperDuration q := by
  unfold popResolve bumpProp
  rw [himp, hdef]
  cases q
  cases hp : c.isProperDuration <;> cases hm : c.isMultiplicationExpr <;> simp

theorem popResolve_improper_nonmul (c q : Ctx) (himp : c.isImproperDuration = true)
    (hm : c.isMultiplicationExpr = false) :
    popResolve c q = { q with hasImproperDurationChild := true } := by
  unfold popResolve
  have hp : c.isProperDuration = false := by
    simp [Ctx.isProperDuration, himp]
  rw [himp, hp, hm]
  simp

theorem popCurrent_shape (st : TState) (cur par : Ctx) (ps : List Ctx)
    (hst : st.stack = cur :: par :: ps) :
    popCurrent st =
      .ok { sentinel := st.sentinel, stack := popResolve cur par :: ps,
            reported := st.reported ++ popEmits cur } := by
  unfold popCurrent
  rw [hst]

theorem exceptOk_bind {ε α β : Type} (a : α) (f : α → Except ε β) :
    ((Except.ok a : Except ε α) >>= f) = f a := rfl

theorem pushedCtx_impNode (ti : TypesInfoV) (n : Node) :
    (pushedCtx ti n).isImproperDurationNode = false := rfl

theorem pushedCtx_impChild (ti : TypesInfoV) (n : Node) :
    (pushedCtx ti n).hasImproperDurationChild = false := rfl

theorem pushedCtx_deferred (ti : TypesInfoV) (n : Node) :
    (pushedCtx ti n).deferredImproperDurationDiagnostics = [] := rfl

/-- A literal or identifier leaf. -/
def IsLeafNode (a : Node) : Prop :=
  (∃ v p, a = Node.basicLit v p) ∨ (∃ nm p, a = Node.ident nm p)

theorem inspectNode_basicLit_eval (strict : Bool) (ti : TypesInfoV) (v : String)
    (p : Nat) (st : TState) (q : Ctx) (qs : List Ctx) (hst : st.stack = q :: qs) :
    inspectNode strict ti st (.basicLit v p) =
      .ok { st with
            stack := bumpProp (isDurationType (ti.typeOf (.basicLit v p))) q :: qs } := by
  simp only [inspectNode]
  rw [popCurrent_shape (pushCurrent ti st (.basicLit v p))
    (pushedCtx ti (.basicLit v p)) q qs (by rw [pushCurrent_stack, hst])]
  rw [popResolve_clean _ _ (isImproper_of_no_imp _ rfl rfl) rfl]
  rw [popEmits_of_deferred_nil _ rfl, List.append_nil]
  rw [isProper_of_no_imp _ rfl rfl]
  rfl

theorem inspectNode_ident_eval (strict : Bool) (ti : TypesInfoV) (nm : String)
    (p : Nat) (st : TState) (q : Ctx) (qs : List Ctx) (hst : st.stack = q :: qs) :
    inspectNode strict ti st (.ident nm p) =
      .ok { st with
            stack := bumpProp (isDurationType (ti.typeOf (.ident nm p))) q :: qs } := by
  simp only [inspectNode]
  rw [popCurrent_shape (pushCurrent ti st (.ident nm p))
    (pushedCtx ti (.ident nm p)) q qs (by rw [pushCurrent_stack, hst])]
  rw [popResolve_clean _ _ (isImproper_of_no_imp _ rfl rfl) rfl]
  rw [popEmits_of_deferred_nil _ rfl, List.append_nil]
  rw [isProper_of_no_imp _ rfl rfl]
  rfl

theorem inspectNode_leaf_eval (strict : Bool) (ti : TypesInfoV) (a : Node)
    (hleaf : IsLeafNode a) (st : TState) (q : Ctx) (qs : List Ctx)
    (hst : st.stack = q :: qs) :
    inspectNode strict ti st a =
      .ok { st with stack := bumpProp (isDurationType (ti.typeOf a)) q :: qs } := by
  rcases hleaf with ⟨v, p, rfl⟩ | ⟨nm, p, rfl⟩
  · exact inspectNode_basicLit_eval strict ti v p st q qs hst
  · exact inspectNode_ident_eval strict ti nm p st q qs hst

end DurationLint
namespace DurationLint

theorem pushedCtx_isDur (ti : TypesInfoV) (n : Node) :
    (pushedCtx ti n).isDurationType =
      (n.isExpr && isDurationType (ti.typeOf n)) := rfl

/-- Popping a freshly pushed context: the parent is bumped when the node's
resolved type is the duration type, nothing is emitted. -/
theorem popCurrent_pushCurrent (ti : TypesInfoV) (st : TState) (n : Node)
    (q : Ctx) (qs : List Ctx) (hst : st.stack = q :: qs) :
    popCurrent (pushCurrent ti st n) =
      .ok { st with
            stack := bumpProp (n.isExpr && isDurationType (ti.typeOf n))
              q :: qs } := by
  rw [popCurrent_shape (pushCurrent ti st n) (pushedCtx ti n) q qs
    (by rw [pushCurrent_stack, hst])]
  rw [popResolve_clean _ _ (isImproper_of_no_imp _ rfl rfl) rfl]
  rw [popEmits_of_deferred_nil _ rfl, List.append_nil]
  rw [isProper_of_no_imp _ rfl rfl]
  rfl

theorem inspectNode_selector_idents_eval (strict : Bool) (ti : TypesInfoV)
    (na : String) (pa : Nat) (nb : String) (pb : Nat) (p : Nat)
    (st : TState) (q : Ctx) (qs : List Ctx) (hst : st.stack = q :: qs) :
    inspectNode strict ti st (.selectorExpr (.ident na pa) (.ident nb pb) p) =
      .ok { st with
            stack := bumpProp (isDurationType
              (ti.typeOf (.selectorExpr (.ident na pa) (.ident nb pb) p)))
              q :: qs } := by
  simp only [inspectNode]
  rw [popCurrent_pushCurrent ti _ (.ident na pa)
    (pushedCtx ti (.selectorExpr (.ident na pa) (.ident nb pb) p)) (q :: qs)
    (by rw [pushCurrent_stack, hst])]
  simp only [exceptOk_bind]
  rw [popCurrent_pushCurrent ti _ (.ident nb pb)
    (bumpProp (Node.isExpr (.ident na pa) &&
        isDurationType (ti.typeOf (.ident na pa)))
      (pushedCtx ti (.selectorExpr (.ident na pa) (.ident nb pb) p)))
    (q :: qs) rfl]
  simp only [exceptOk_bind]
  rw [popCurrent_shape _ _ q qs rfl]
  rw [popResolve_clean _ _
    (isImproper_of_no_imp _
      (by rw [bumpProp_impNode, bumpProp_impNode, pushedCtx_impNode])
      (by rw [bumpProp_impChild, bumpProp_impChild, pushedCtx_impChild]))
    (by rw [bumpProp_deferred, bumpProp_deferred, pushedCtx_deferred])]
  rw [popEmits_of_deferred_nil _
    (by rw [bumpProp_deferred, bumpProp_deferred, pushedCtx_deferred]),
    List.append_nil]
  rw [isProper_of_no_imp _
    (by rw [bumpProp_impNode, bumpProp_impNode, pushedCtx_impNode])
    (by rw [bumpProp_impChild, bumpProp_impChild, pushedCtx_impChild])]
  rw [bumpProp_isDur, bumpProp_isDur, pushedCtx_isDur]
  rfl

end DurationLint
namespace DurationLint

/-- Visiting a recognized conversion call `time.Duration(a)` in strict mode
with a bare (flagged) leaf argument: the parent context receives the deferred
diagnostic and the improper-child flag, nothing is reported yet. -/
theorem inspectNode_conv_bare_eval (ti : TypesInfoV)
    (pt pd pf pc : Nat) (a : Node) (diag : Diagnostic)
    (hleaf : IsLeafNode a)
    (hbare : checkDurationConversionArgument ti a = .ok (Option.some diag))
    (hconv : isDurationType (ti.typeOf
      (.callExpr (.selectorExpr (.ident "time" pt) (.ident "Duration" pd) pf)
        (.cons a .nil) pc)) = true)
    (st : TState) (q : Ctx) (qs : List Ctx) (hst : st.stack = q :: qs) :
    inspectNode true ti st
      (.callExpr (.selectorExpr (.ident "time" pt) (.ident "Duration" pd) pf)
        (.cons a .nil) pc) =
      .ok { st with
            stack := { addDeferred q diag with hasImproperDurationChild := true }
              :: qs } := by
  have hcv : isDurationConversion
      (.selectorExpr (.ident "time" pt) (.ident "Duration" pd) pf)
      (.cons a .nil) = true := rfl
  rw [inspectNode]
  rw [if_pos hcv, if_neg (show ¬(!true) = true by simp)]
  rw [hbare]
  simp only [exceptOk_bind]
  rw [reportImproperDurationNode_shape _ diag
    (pushedCtx ti (.callExpr (.selectorExpr (.ident "time" pt)
      (.ident "Duration" pd) pf) (.cons a .nil) pc)) q qs
    (by rw [pushCurrent_stack, hst])]
  simp only [exceptOk_bind]
  rw [inspectNode_selector_idents_eval true ti "time" pt "Duration" pd pf _
    { pushedCtx ti (.callExpr (.selectorExpr (.ident "time" pt)
        (.ident "Duration" pd) pf) (.cons a .nil) pc) with
      isImproperDurationNode := true }
    (addDeferred q diag :: qs) rfl]
  simp only [exceptOk_bind]
  rw [inspectList]
  rw [inspectNode_leaf_eval true ti a hleaf _
    (bumpProp (isDurationType (ti.typeOf (.selectorExpr (.ident "time" pt)
        (.ident "Duration" pd) pf)))
      { pushedCtx ti (.callExpr (.selectorExpr (.ident "time" pt)
          (.ident "Duration" pd) pf) (.cons a .nil) pc) with
        isImproperDurationNode := true })
    (addDeferred q diag :: qs) rfl]
  simp only [exceptOk_bind]
  rw [inspectList]
  simp only [exceptOk_bind]
  rw [popCurrent_shape _ _ (addDeferred q diag) qs rfl]
  rw [popResolve_improper_nonmul _ _ ?himp ?hm]
  case hm =>
    rw [bumpProp_isMult, bumpProp_isMult]
    rfl
  case himp =>
    show Ctx.isImproperDuration _ = true
    unfold Ctx.isImproperDuration
    rw [bumpProp_isDur, bumpProp_isDur]
    rw [bumpProp_impNode, bumpProp_impNode]
    rw [show ({ pushedCtx ti (.callExpr (.selectorExpr (.ident "time" pt)
        (.ident "Duration" pd) pf) (.cons a .nil) pc) with
        isImproperDurationNode := true } : Ctx).isDurationType =
      isDurationType (ti.typeOf (.callExpr (.selectorExpr (.ident "time" pt)
        (.ident "Duration" pd) pf) (.cons a .nil) pc)) from rfl]
    rw [hconv]
    rfl
  rw [popEmits_of_deferred_nil _
    (by rw [bumpProp_deferred, bumpProp_deferred]; rfl), List.append_nil]
  rfl

end DurationLint
namespace DurationLint

theorem popResolve_inert (c q : Ctx) (hdur : c.isDurationType = false)
    (hm : c.isMultiplicationExpr = false) : popResolve c q = q := by
  have h1 : c.isImproperDuration = false := by
    simp [Ctx.isImproperDuration, hdur]
  have h2 : c.isProperDuration = false := by
    simp [Ctx.isProperDuration, hdur]
  unfold popResolve
  rw [h1, h2, hm]
  simp

theorem popEmits_all (c : Ctx) (hp : c.isProperDuration = false)
    (hm : c.isMultiplicationExpr = false) :
    popEmits c = c.deferredImproperDurationDiagnostics := by
  unfold popEmits
  rw [hp, hm]
  simp

theorem isImproper_false_of_proper (c : Ctx) (hp : c.isProperDuration = true) :
    c.isImproperDuration = false := by
  unfold Ctx.isProperDuration at hp
  obtain ⟨-, h2⟩ := (Bool.and_eq_true _ _).mp hp
  simpa using h2

theorem popResolve_proper (c q : Ctx) (hp : c.isProperDuration = true) :
    popResolve c q = { q with hasProperDurationChild := true } := by
  unfold popResolve
  rw [isImproper_false_of_proper c hp, hp]
  simp

theorem popEmits_proper (c : Ctx) (hp : c.isProperDuration = true) :
    popEmits c = [] := by
  unfold popEmits
  rw [hp]
  simp

theorem isDurationType_none : isDurationType Option.none = false := rfl

theorem checkAssignment_none_l (ti : TypesInfoV) (l r : Node)
    (h : ti.typeOf l = Option.none) : checkAssignment ti l r = .ok Option.none := by
  unfold checkAssignment
  rw [h]

theorem reportOpt_none (st : TState) : reportOpt st Option.none = st := rfl

/-- The modelled `time.Duration` type value (`typ.String()` is
`"time.Duration"`; it is a named type, not a `*types.Basic` integer). -/
def durationTypeV : TypeV := ⟨"time.Duration", false⟩

/-! ### The strict-mode deferral scenarios (claim C1)

Shapes: `_ = time.Duration(a)` standing alone, `_ = time.Duration(a) *
time.Second`, and `_ = time.Duration(a) + time.Second`, each as the single
statement of a file, with a symbolic type environment and a symbolic bare
argument. -/

/-- `time.Duration(a)`. -/
def convCall (a : Node) : Node :=
  .callExpr (.selectorExpr (.ident "time" 1) (.ident "Duration" 2) 3)
    (.cons a .nil) 4

/-- `time.Second`. -/
def uSecond : Node := .selectorExpr (.ident "time" 6) (.ident "Second" 7) 8

/-- `time.Duration(a) * time.Second`. -/
def mulRedeemed (a : Node) : Node := .binaryExpr .mul (convCall a) uSecond 11

/-- `time.Duration(a) + time.Second`. -/
def addUnredeemed (a : Node) : Node := .binaryExpr .add (convCall a) uSecond 12

/-- `_ = rhs`. -/
def assignBlank (rhs : Node) : Node :=
  .assignStmt (.cons (.ident "_" 5) .nil) (.cons rhs .nil) 9

/-- A file whose single statement is `_ = rhs`. -/
def fileOf (rhs : Node) : Node := .file (.cons (assignBlank rhs) .nil) 10

end DurationLint
namespace DurationLint

/-- Visiting `time.Duration(a) * time.Second` in strict mode: the
multiplication resolves as a proper duration, the deferred diagnostic is
dropped, nothing is reported, and the parent only gains the proper-child
flag. -/
theorem inspectNode_mulRedeemed_eval (ti : TypesInfoV) (a : Node)
    (diag : Diagnostic) (hleaf : IsLeafNode a)
    (hbare : checkDurationConversionArgument ti a = .ok (Option.some diag))
    (hconvT : ti.typeOf (convCall a) = Option.some durationTypeV)
    (huT : ti.typeOf uSecond = Option.some durationTypeV)
    (hmulT : ti.typeOf (mulRedeemed a) = Option.some durationTypeV)
    (st : TState) (q : Ctx) (qs : List Ctx) (hst : st.stack = q :: qs) :
    inspectNode true ti st (mulRedeemed a) =
      .ok { st with stack := { q with hasProperDurationChild := true } :: qs } := by
  have hconv' : isDurationType (ti.typeOf (.callExpr (.selectorExpr
      (.ident "time" 1) (.ident "Duration" 2) 3) (.cons a .nil) 4)) = true := by
    rw [show ti.typeOf (.callExpr (.selectorExpr (.ident "time" 1)
      (.ident "Duration" 2) 3) (.cons a .nil) 4) = Option.some durationTypeV
      from hconvT]
    rfl
  have hu' : isDurationType (ti.typeOf (.selectorExpr (.ident "time" 6)
      (.ident "Second" 7) 8)) = true := by
    rw [show ti.typeOf (.selectorExpr (.ident "time" 6) (.ident "Second" 7) 8) =
      Option.some durationTypeV from huT]
    rfl
  have hmul' : ti.typeOf (.binaryExpr .mul (.callExpr (.selectorExpr
      (.ident "time" 1) (.ident "Duration" 2) 3) (.cons a .nil) 4)
      (.selectorExpr (.ident "time" 6) (.ident "Second" 7) 8) 11) =
      Option.some durationTypeV := hmulT
  unfold mulRedeemed convCall uSecond
  rw [inspectNode]
  rw [inspectNode_conv_bare_eval ti 1 2 3 4 a diag hleaf hbare hconv'
    (pushCurrent ti st (.binaryExpr .mul (.callExpr (.selectorExpr
      (.ident "time" 1) (.ident "Duration" 2) 3) (.cons a .nil) 4)
      (.selectorExpr (.ident "time" 6) (.ident "Second" 7) 8) 11))
    (pushedCtx ti (.binaryExpr .mul (.callExpr (.selectorExpr
      (.ident "time" 1) (.ident "Duration" 2) 3) (.cons a .nil) 4)
      (.selectorExpr (.ident "time" 6) (.ident "Second" 7) 8) 11))
    (q :: qs) (by rw [pushCurrent_stack, hst])]
  simp only [exceptOk_bind]
  rw [inspectNode_selector_idents_eval true ti "time" 6 "Second" 7 8 _
    { addDeferred (pushedCtx ti (.binaryExpr .mul (.callExpr (.selectorExpr
        (.ident "time" 1) (.ident "Duration" 2) 3) (.cons a .nil) 4)
        (.selectorExpr (.ident "time" 6) (.ident "Second" 7) 8) 11)) diag with
      hasImproperDurationChild := true }
    (q :: qs) rfl]
  rw [hu']
  simp only [exceptOk_bind]
  have hp : (bumpProp true
      { addDeferred (pushedCtx ti (.binaryExpr .mul (.callExpr (.selectorExpr
          (.ident "time" 1) (.ident "Duration" 2) 3) (.cons a .nil) 4)
          (.selectorExpr (.ident "time" 6) (.ident "Second" 7) 8) 11)) diag with
        hasImproperDurationChild := true }).isProperDuration = true := by
    unfold Ctx.isProperDuration Ctx.isImproperDuration bumpProp addDeferred pushedCtx
    rw [hmul']
    rfl
  rw [popCurrent_shape _ _ q qs rfl]
  rw [popResolve_proper _ _ hp, popEmits_proper _ hp, List.append_nil]
  rfl

/-- Visiting `time.Duration(a) + time.Second` in strict mode: the addition
cannot redeem the conversion, so the deferred diagnostic is reported at this
pop, and the parent gains the improper-child flag. -/
theorem inspectNode_addUnredeemed_eval (ti : TypesInfoV) (a : Node)
    (diag : Diagnostic) (hleaf : IsLeafNode a)
    (hbare : checkDurationConversionArgument ti a = .ok (Option.some diag))
    (hconvT : ti.typeOf (convCall a) = Option.some durationTypeV)
    (huT : ti.typeOf uSecond = Option.some durationTypeV)
    (haddT : ti.typeOf (addUnredeemed a) = Option.some durationTypeV)
    (st : TState) (q : Ctx) (qs : List Ctx) (hst : st.stack = q :: qs) :
    inspectNode true ti st (addUnredeemed a) =
      .ok { sentinel := st.sentinel,
            stack := { q with hasImproperDurationChild := true } :: qs,
            reported := st.reported ++ [diag] } := by
  have hconv' : isDurationType (ti.typeOf (.callExpr (.selectorExpr
      (.ident "time" 1) (.ident "Duration" 2) 3) (.cons a .nil) 4)) = true := by
    rw [show ti.typeOf (.callExpr (.selectorExpr (.ident "time" 1)
      (.ident "Duration" 2) 3) (.cons a .nil) 4) = Option.some durationTypeV
      from hconvT]
    rfl
  have hu' : isDurationType (ti.typeOf (.selectorExpr (.ident "time" 6)
      (.ident "Second" 7) 8)) = true := by
    rw [show ti.typeOf (.selectorExpr (.ident "time" 6) (.ident "Second" 7) 8) =
      Option.some durationTypeV from huT]
    rfl
  have hadd' : ti.typeOf (.binaryExpr .add (.callExpr (.selectorExpr
      (.ident "time" 1) (.ident "Duration" 2) 3) (.cons a .nil) 4)
      (.selectorExpr (.ident "time" 6) (.ident "Second" 7) 8) 12) =
      Option.some durationTypeV := haddT
  unfold addUnredeemed convCall uSecond
  rw [inspectNode]
  rw [inspectNode_conv_bare_eval ti 1 2 3 4 a diag hleaf hbare hconv'
    (pushCurrent ti st (.binaryExpr .add (.callExpr (.selectorExpr
      (.ident "time" 1) (.ident "Duration" 2) 3) (.cons a .nil) 4)
      (.selectorExpr (.ident "time" 6) (.ident "Second" 7) 8) 12))
    (pushedCtx ti (.binaryExpr .add (.callExpr (.selectorExpr
      (.ident "time" 1) (.ident "Duration" 2) 3) (.cons a .nil) 4)
      (.selectorExpr (.ident "time" 6) (.ident "Second" 7) 8) 12))
    (q :: qs) (by rw [pushCurrent_stack, hst])]
  simp only [exceptOk_bind]
  rw [inspectNode_selector_idents_eval true ti "time" 6 "Second" 7 8 _
    { addDeferred (pushedCtx ti (.binaryExpr .add (.callExpr (.selectorExpr
        (.ident "time" 1) (.ident "Duration" 2) 3) (.cons a .nil) 4)
        (.selectorExpr (.ident "time" 6) (.ident "Second" 7) 8) 12)) diag with
      hasImproperDurationChild := true }
    (q :: qs) rfl]
  rw [hu']
  simp only [exceptOk_bind]
  have himp : (bumpProp true
      { addDeferred (pushedCtx ti (.binaryExpr .add (.callExpr (.selectorExpr
          (.ident "time" 1) (.ident "Duration" 2) 3) (.cons a .nil) 4)
          (.selectorExpr (.ident "time" 6) (.ident "Second" 7) 8) 12)) diag with
        hasImproperDurationChild := true }).isImproperDuration = true := by
    unfold Ctx.isImproperDuration bumpProp addDeferred pushedCtx
    rw [hadd']
    rfl
  have hm : (bumpProp true
      { addDeferred (pushedCtx ti (.binaryExpr .add (.callExpr (.selectorExpr
          (.ident "time" 1) (.ident "Duration" 2) 3) (.cons a .nil) 4)
          (.selectorExpr (.ident "time" 6) (.ident "Second" 7) 8) 12)) diag with
        hasImproperDurationChild := true }).isMultiplicationExpr = false := by
    rw [bumpProp_isMult]
    rfl
  have hp2 : (bumpProp true
      { addDeferred (pushedCtx ti (.binaryExpr .add (.callExpr (.selectorExpr
          (.ident "time" 1) (.ident "Duration" 2) 3) (.cons a .nil) 4)
          (.selectorExpr (.ident "time" 6) (.ident "Second" 7) 8) 12)) diag with
        hasImproperDurationChild := true }).isProperDuration = false := by
    unfold Ctx.isProperDuration
    rw [himp]
    simp
  rw [popCurrent_shape _ _ q qs rfl]
  rw [popResolve_improper_nonmul _ _ himp hm, popEmits_all _ hp2 hm]
  rw [show (bumpProp true
      { addDeferred (pushedCtx ti (.binaryExpr .add (.callExpr (.selectorExpr
          (.ident "time" 1) (.ident "Duration" 2) 3) (.cons a .nil) 4)
          (.selectorExpr (.ident "time" 6) (.ident "Second" 7) 8) 12)) diag with
        hasImproperDurationChild := true }).deferredImproperDurationDiagnostics =
      [diag] from rfl]
  rfl

end DurationLint
namespace DurationLint

theorem popCurrent_shape_root (st : TState) (cur : Ctx) (hst : st.stack = [cur]) :
    popCurrent st =
      .ok { sentinel := popResolve cur st.sentinel, stack := [],
            reported := st.reported ++ popEmits cur } := by
  unfold popCurrent
  rw [hst]

/-- Running the analyzer on a file whose single statement is `_ = rhs`, in
strict mode: the right-hand side's visit leaves its emissions `E` and its net
parent effect `G`; the assignment statement's pop then reports whatever `G`
deferred into its context, and the file pop and finalization add nothing. -/
theorem runFile_assign_rhs (ti : TypesInfoV) (rhs : Node) (G : Ctx → Ctx)
    (E : List Diagnostic)
    (hblank : ti.typeOf (.ident "_" 5) = Option.none)
    (hGdur : (G (pushedCtx ti (assignBlank rhs))).isDurationType = false)
    (hGmult : (G (pushedCtx ti (assignBlank rhs))).isMultiplicationExpr = false)
    (hrhs : ∀ st q qs, st.stack = q :: qs →
      inspectNode true ti st rhs =
        .ok { sentinel := st.sentinel, stack := G q :: qs,
              reported := st.reported ++ E }) :
    runFile true ti (fileOf rhs) =
      .ok (E ++ (G (pushedCtx ti (assignBlank
        rhs))).deferredImproperDurationDiagnostics) := by
  have hGprop : (G (pushedCtx ti (assignBlank rhs))).isProperDuration = false := by
    simp [Ctx.isProperDuration, hGdur]
  unfold runFile runFileSt traverseFile fileOf
  rw [show assignBlank rhs = .assignStmt (.cons (.ident "_" 5) .nil)
    (.cons rhs .nil) 9 from rfl] at hGdur hGmult hGprop ⊢
  rw [inspectNode]
  simp only [inspectList]
  rw [inspectNode]
  simp only [checkAssignStmtPairs]
  rw [checkAssignment_none_l ti _ _ hblank]
  simp only [exceptOk_bind, reportOpt]
  simp only [inspectList]
  rw [inspectNode_ident_eval true ti "_" 5 _
    (pushedCtx ti (.assignStmt (.cons (.ident "_" 5) .nil) (.cons rhs .nil) 9))
    [pushedCtx ti (.file (.cons (.assignStmt (.cons (.ident "_" 5) .nil)
      (.cons rhs .nil) 9) .nil) 10)] rfl]
  rw [hblank, isDurationType_none, bumpProp_false]
  simp only [exceptOk_bind]
  rw [hrhs _
    (pushedCtx ti (.assignStmt (.cons (.ident "_" 5) .nil) (.cons rhs .nil) 9))
    [pushedCtx ti (.file (.cons (.assignStmt (.cons (.ident "_" 5) .nil)
      (.cons rhs .nil) 9) .nil) 10)] rfl]
  simp only [exceptOk_bind]
  rw [popCurrent_shape _
    (G (pushedCtx ti (.assignStmt (.cons (.ident "_" 5) .nil)
      (.cons rhs .nil) 9)))
    (pushedCtx ti (.file (.cons (.assignStmt (.cons (.ident "_" 5) .nil)
      (.cons rhs .nil) 9) .nil) 10)) [] rfl]
  rw [popResolve_inert _ _ hGdur hGmult, popEmits_all _ hGprop hGmult]
  simp only [exceptOk_bind]
  rw [popCurrent_shape_root _
    (pushedCtx ti (.file (.cons (.assignStmt (.cons (.ident "_" 5) .nil)
      (.cons rhs .nil) 9) .nil) 10)) rfl]
  rw [popEmits_of_deferred_nil _ rfl]
  simp only [exceptOk_bind]
  rw [finishStack_of_empty _
    (by rw [popResolve_deferred_of_not_mul _ _ rfl]; rfl)]
  simp [pushCurrent, initState, Except.map]

end DurationLint
namespace DurationLint

/-- The diagnostic the conversion-argument check creates for argument `a`. -/
def convDiag (a : Node) : Diagnostic :=
  ⟨Node.pos a,
    "converting integer via time.Duration() without multiplication by proper duration"⟩

/-- C1: in strict conversion mode, for a recognized duration-conversion call
with a unit-less or integer-typed (leaf) argument: standing alone (as the
right-hand side of an assignment) it yields exactly one diagnostic, at the
argument's position; multiplied by a proper duration (`time.Second`) it
yields zero diagnostics; added to a proper duration it yields exactly the one
diagnostic — each improper use reported exactly once, never zero times and
never twice. -/
theorem c1_strict_deferral (ti : TypesInfoV) (a : Node)
    (hleaf : IsLeafNode a)
    (hbare : checkDurationConversionArgument ti a = .ok (Option.some (convDiag a)))
    (hblank : ti.typeOf (.ident "_" 5) = Option.none)
    (hconvT : ti.typeOf (convCall a) = Option.some durationTypeV)
    (huT : ti.typeOf uSecond = Option.some durationTypeV)
    (hmulT : ti.typeOf (mulRedeemed a) = Option.some durationTypeV)
    (haddT : ti.typeOf (addUnredeemed a) = Option.some durationTypeV) :
    runFile true ti (fileOf (convCall a)) = .ok [convDiag a] ∧
    runFile true ti (fileOf (mulRedeemed a)) = .ok [] ∧
    runFile true ti (fileOf (addUnredeemed a)) = .ok [convDiag a] := by
  have hconv' : isDurationType (ti.typeOf (.callExpr (.selectorExpr
      (.ident "time" 1) (.ident "Duration" 2) 3) (.cons a .nil) 4)) = true := by
    rw [show ti.typeOf (.callExpr (.selectorExpr (.ident "time" 1)
      (.ident "Duration" 2) 3) (.cons a .nil) 4) = Option.some durationTypeV
      from hconvT]
    rfl
  refine ⟨?_, ?_, ?_⟩
  · have h := runFile_assign_rhs ti (convCall a)
      (fun q => { addDeferred q (convDiag a) with
        hasImproperDurationChild := true }) []
      hblank rfl rfl ?_
    · rw [h]
      rfl
    · intro st q qs hst
      have hc := inspectNode_conv_bare_eval ti 1 2 3 4 a (convDiag a) hleaf hbare
        hconv' st q qs hst
      rw [show convCall a = .callExpr (.selectorExpr (.ident "time" 1)
        (.ident "Duration" 2) 3) (.cons a .nil) 4 from rfl, hc]
      cases st
      simp
  · have h := runFile_assign_rhs ti (mulRedeemed a)
      (fun q => { q with hasProperDurationChild := true }) []
      hblank rfl rfl ?_
    · rw [h]
      rfl
    · intro st q qs hst
      have hc := inspectNode_mulRedeemed_eval ti a (convDiag a) hleaf hbare
        hconvT huT hmulT st q qs hst
      rw [hc]
      cases st
      simp
  · have h := runFile_assign_rhs ti (addUnredeemed a)
      (fun q => { q with hasImproperDurationChild := true }) [convDiag a]
      hblank rfl rfl ?_
    · rw [h]
      simp [pushedCtx_deferred]
    · intro st q qs hst
      exact inspectNode_addUnredeemed_eval ti a (convDiag a) hleaf hbare
        hconvT huT haddT st q qs hst

end DurationLint
namespace DurationLint

/-- Concrete type information for the strict-mode scenarios: the conversion
call, `time.Second`, and both binary nodes are `time.Duration`-typed;
everything else untyped. -/
def tiC1 : TypesInfoV where
  typeOf := fun n =>
    match n.pos with
    | 4 => Option.some durationTypeV
    | 8 => Option.some durationTypeV
    | 11 => Option.some durationTypeV
    | 12 => Option.some durationTypeV
    | _ => Option.none
  declOf := fun _ => Option.none

/-- Witness for C1 at the concrete argument `5`. -/
theorem c1_strict_deferral_witness :
    runFile true tiC1 (fileOf (convCall (.basicLit "5" 100))) =
      .ok [convDiag (.basicLit "5" 100)] ∧
    runFile true tiC1 (fileOf (mulRedeemed (.basicLit "5" 100))) = .ok [] ∧
    runFile true tiC1 (fileOf (addUnredeemed (.basicLit "5" 100))) =
      .ok [convDiag (.basicLit "5" 100)] :=
  c1_strict_deferral tiC1 (.basicLit "5" 100)
    (Or.inl ⟨"5", 100, rfl⟩) rfl rfl rfl rfl rfl rfl

/-- C8: the conversion-call recognizer accepts exactly the single-argument
calls whose callee is a selector expression with trailing identifier
`Duration`, regardless of the qualifying namespace; calls with another
trailing name, another argument count, or a non-selector callee are not
recognized. -/
theorem c8_conversion_recognizer (f : Node) (args : NodeList) :
    isDurationConversion f args = true ↔
      ((∃ x selPos p, f = .selectorExpr x (.ident "Duration" selPos) p) ∧
        args.length = 1) := by
  constructor
  · intro h
    cases f with
    | selectorExpr x sel p =>
      cases sel with
      | ident nm np =>
        have h' : (if (args.length != 1) = true then false
            else (nm == "Duration")) = true := h
        by_cases hlen : args.length = 1
        · rw [if_neg (by simp [hlen])] at h'
          refine ⟨⟨x, np, p, ?_⟩, hlen⟩
          rw [eq_of_beq h']
        · rw [if_pos (by simp [hlen])] at h'
          simp at h'
      | basicLit v q => simp [isDurationConversion] at h
      | binaryExpr o a b q => simp [isDurationConversion] at h
      | parenExpr a q => simp [isDurationConversion] at h
      | selectorExpr a b q => simp [isDurationConversion] at h
      | callExpr a b q => simp [isDurationConversion] at h
      | keyValueExpr a b q => simp [isDurationConversion] at h
      | compositeLit a b q => simp [isDurationConversion] at h
      | assignStmt a b q => simp [isDurationConversion] at h
      | valueSpec a b c q => simp [isDurationConversion] at h
      | exprStmt a q => simp [isDurationConversion] at h
      | file a q => simp [isDurationConversion] at h
      | otherNode a q => simp [isDurationConversion] at h
    | basicLit v p => simp [isDurationConversion] at h
    | ident nm p => simp [isDurationConversion] at h
    | binaryExpr o a b p => simp [isDurationConversion] at h
    | parenExpr a p => simp [isDurationConversion] at h
    | callExpr a b p => simp [isDurationConversion] at h
    | keyValueExpr a b p => simp [isDurationConversion] at h
    | compositeLit a b p => simp [isDurationConversion] at h
    | assignStmt a b p => simp [isDurationConversion] at h
    | valueSpec a b c p => simp [isDurationConversion] at h
    | exprStmt a p => simp [isDurationConversion] at h
    | file a p => simp [isDurationConversion] at h
    | otherNode a p => simp [isDurationConversion] at h
  · rintro ⟨⟨x, sp, p, rfl⟩, hlen⟩
    show (if (args.length != 1) = true then false
      else (("Duration" : String) == "Duration")) = true
    rw [if_neg (by simp [hlen])]
    rfl

end DurationLint
namespace DurationLint

/-- Products of literals with a side the classifier already accepts as
proper, with arbitrary parenthesization and nesting (the `literal * proper`
grammar of the spec, in either operand order). -/
inductive SafeMul (ti : TypesInfoV) : Node → Prop where
  | properSide (u : Node)
      (h : usesIntOrUntypedConstants ti u = .ok false) : SafeMul ti u
  | litLeft (v : String) (p q : Nat) (e : Node) (h : SafeMul ti e) :
      SafeMul ti (.binaryExpr .mul (.basicLit v p) e q)
  | litRight (v : String) (p q : Nat) (e : Node) (h : SafeMul ti e) :
      SafeMul ti (.binaryExpr .mul e (.basicLit v p) q)
  | par (e : Node) (p : Nat) (h : SafeMul ti e) : SafeMul ti (.parenExpr e p)

theorem safeMul_not_unitless (ti : TypesInfoV) :
    ∀ e : Node, SafeMul ti e → usesIntOrUntypedConstants ti e = .ok false := by
  intro e h
  induction h with
  | properSide u hu => exact hu
  | litLeft v p q e h ih =>
    show (do
      let a ← usesIntOrUntypedConstants ti (.basicLit v p)
      if a then usesIntOrUntypedConstants ti e else .ok false) = .ok false
    cases hv : (v != "0") with
    | false =>
      simp [usesIntOrUntypedConstants, hv, bind, Except.bind]
    | true =>
      simp [usesIntOrUntypedConstants, hv, bind, Except.bind, ih]
  | litRight v p q e h ih =>
    show (do
      let a ← usesIntOrUntypedConstants ti e
      if a then usesIntOrUntypedConstants ti (.basicLit v p)
      else .ok false) = .ok false
    rw [ih]
    rfl
  | par e p h ih =>
    show usesIntOrUntypedConstants ti e = .ok false
    exact ih

/-- C2: the unit-less classifier marks additions and subtractions unit-less
iff either operand is, multiplications iff both operands are; consequently
every `literal * proper` shape (either order, any nesting of products and
parentheses) passes both the assignment check (for any left-hand side) and
the argument check without a diagnostic. -/
theorem c2_unitless_classifier (ti : TypesInfoV) :
    (∀ (x y : Node) (p : Nat) (a b : Bool),
      usesIntOrUntypedConstants ti x = .ok a →
      usesIntOrUntypedConstants ti y = .ok b →
      usesIntOrUntypedConstants ti (.binaryExpr .add x y p) = .ok (a || b) ∧
      usesIntOrUntypedConstants ti (.binaryExpr .sub x y p) = .ok (a || b) ∧
      usesIntOrUntypedConstants ti (.binaryExpr .mul x y p) = .ok (a && b)) ∧
    (∀ e : Node, SafeMul ti e →
      (∀ l : Node, checkAssignment ti l e = .ok Option.none) ∧
      checkArgument ti e = .ok Option.none) := by
  constructor
  · intro x y p a b hx hy
    refine ⟨?_, ?_, ?_⟩
    · show (do
        let a ← usesIntOrUntypedConstants ti x
        if a then .ok true else usesIntOrUntypedConstants ti y) = .ok (a || b)
      rw [hx]
      cases a with
      | false => simpa [bind, Except.bind] using hy
      | true => rfl
    · show (do
        let a ← usesIntOrUntypedConstants ti x
        if a then .ok true else usesIntOrUntypedConstants ti y) = .ok (a || b)
      rw [hx]
      cases a with
      | false => simpa [bind, Except.bind] using hy
      | true => rfl
    · show (do
        let a ← usesIntOrUntypedConstants ti x
        if a then usesIntOrUntypedConstants ti y else .ok false) = .ok (a && b)
      rw [hx]
      cases a with
      | false => rfl
      | true => simpa [bind, Except.bind] using hy
  · intro e he
    have hu := safeMul_not_unitless ti e he
    constructor
    · intro l
      unfold checkAssignment
      cases hl : ti.typeOf l with
      | none => rfl
      | some lt =>
        show (if (lt.str != "time.Duration") = true then Except.ok Option.none
          else do
            let u ← usesIntOrUntypedConstants ti e
            if (!u) = true then Except.ok Option.none
            else Except.ok (Option.some (Diagnostic.mk (Node.pos e)
              "untyped constant in time.Duration assignment"))) =
          Except.ok Option.none
        by_cases hs : (lt.str != "time.Duration") = true
        · rw [if_pos hs]
        · rw [if_neg hs]
          rw [hu]
          rfl
    · unfold checkArgument
      by_cases hd : (!isDurationType (ti.typeOf e)) = true
      · rw [if_pos hd]
      · rw [if_neg hd]
        rw [hu]
        rfl

/-- Concrete environment for the C2 witness. -/
def tiC2 : TypesInfoV := ⟨fun _ => Option.none, fun _ => Option.none⟩

/-- Witness for C2 at concrete operands: `1 + 0` is unit-less, `1 * 0` is
unit-less iff both sides are, and `5 * time.Second` is never flagged. -/
theorem c2_unitless_classifier_witness :
    (usesIntOrUntypedConstants tiC2
      (.binaryExpr .add (.basicLit "1" 0) (.basicLit "0" 1) 2) = .ok true ∧
     usesIntOrUntypedConstants tiC2
      (.binaryExpr .sub (.basicLit "1" 0) (.basicLit "0" 1) 2) = .ok true ∧
     usesIntOrUntypedConstants tiC2
      (.binaryExpr .mul (.basicLit "1" 0) (.basicLit "0" 1) 2) = .ok false) ∧
    (checkAssignment tiC2 (.ident "d" 3)
      (.binaryExpr .mul (.basicLit "5" 4) uSecond 5) = .ok Option.none ∧
     checkArgument tiC2
      (.binaryExpr .mul (.basicLit "5" 4) uSecond 5) = .ok Option.none) := by
  constructor
  · have h := (c2_unitless_classifier tiC2).1 (.basicLit "1" 0) (.basicLit "0" 1)
      2 true false rfl rfl
    exact ⟨h.1, h.2.1, h.2.2⟩
  · have h := (c2_unitless_classifier tiC2).2
      (.binaryExpr .mul (.basicLit "5" 4) uSecond 5)
      (SafeMul.litLeft "5" 4 5 uSecond (SafeMul.properSide uSecond rfl))
    exact ⟨h.1 (.ident "d" 3), h.2⟩

end DurationLint
namespace DurationLint

/-- Environment for C3: `c` is declared `const c int = 10` (explicitly
integer-typed), `s` is bound by a short variable declaration (`s := 10`),
and `d` is declared `const d string = ...` (explicitly typed, not integer). -/
def tiC3 : TypesInfoV where
  typeOf := fun n =>
    match n.pos with
    | 30 => Option.some ⟨"int", true⟩
    | 31 => Option.some ⟨"int", true⟩
    | 32 => Option.some ⟨"int", true⟩
    | 40 => Option.some ⟨"string", false⟩
    | 41 => Option.some ⟨"string", false⟩
    | _ => Option.none
  declOf := fun nm =>
    match nm with
    | "c" => Option.some (Decl.valueSpec (Option.some (.ident "int" 30)) ["c"]
        [.basicLit "10" 31])
    | "s" => Option.some Decl.assignDecl
    | "d" => Option.some (Decl.valueSpec (Option.some (.ident "string" 40)) ["d"]
        [.basicLit "x" 41])
    | _ => Option.none

/-- C3 counterexample: the identifier `c`, bound by the explicitly
integer-typed declaration `const c int = 10`, IS classified unit-less by the
code (the claim says an explicitly-typed declaration is never unit-less), and
in strict mode it IS flagged at a conversion reference site; meanwhile the
identifier `s`, bound by a short variable declaration with a bare-number
initializer, is NOT classified unit-less (the claim says it is). -/
theorem c3_counterexample :
    usesIntOrUntypedConstants tiC3 (.ident "c" 32) = .ok true ∧
    checkDurationConversionArgument tiC3 (.ident "c" 32) =
      .ok (Option.some ⟨32,
        "converting integer via time.Duration() without multiplication by proper duration"⟩) ∧
    usesIntOrUntypedConstants tiC3 (.ident "s" 33) = .ok false :=
  ⟨rfl, rfl, rfl⟩

/-- C3 amended: an identifier is classified unit-less iff its declaration is
a `var`/`const` value specification whose declared type is absent or an
integer type and whose positionally matching initializer's type is not
`time.Duration`; declarations with an explicit non-integer type, and
declaration forms other than value specifications (in particular `:=` short
variable declarations), are never classified unit-less. -/
theorem c3_amended_identifier_rule (ti : TypesInfoV) (name : String) :
    (∀ te ns vs,
      ti.declOf name = Option.some (Decl.valueSpec (Option.some te) ns vs) →
      isIntegerType (ti.typeOf te) = false →
      hasIntOrUntypedConstDeclaration ti name = .ok false) ∧
    (ti.declOf name = Option.some Decl.assignDecl →
      hasIntOrUntypedConstDeclaration ti name = .ok false) ∧
    (ti.declOf name = Option.some Decl.otherDecl →
      hasIntOrUntypedConstDeclaration ti name = .ok false) ∧
    (∀ tyE ns vs i v t,
      ti.declOf name = Option.some (Decl.valueSpec tyE ns vs) →
      (tyE = Option.none ∨
        ∃ te, tyE = Option.some te ∧ isIntegerType (ti.typeOf te) = true) →
      ns.findIdx? (· == name) = Option.some i →
      vs.get? i = Option.some v →
      ti.typeOf v = Option.some t →
      hasIntOrUntypedConstDeclaration ti name = .ok (t.str != "time.Duration")) := by
  refine ⟨?_, ?_, ?_, ?_⟩
  · intro te ns vs hdecl hint
    simp [hasIntOrUntypedConstDeclaration, hdecl, hint]
  · intro hdecl
    simp [hasIntOrUntypedConstDeclaration, hdecl]
  · intro hdecl
    simp [hasIntOrUntypedConstDeclaration, hdecl]
  · intro tyE ns vs i v t hdecl hty hfind hget htype
    rw [List.get?_eq_getElem?] at hget
    rcases hty with rfl | ⟨te, rfl, hte⟩
    · simp [hasIntOrUntypedConstDeclaration, hdecl, hfind, hget, htype]
    · simp [hasIntOrUntypedConstDeclaration, hdecl, hte, hfind, hget, htype]

end DurationLint
namespace DurationLint

/-- Witness for the amended C3 rule on the concrete declarations of `tiC3`. -/
theorem c3_amended_identifier_rule_witness :
    hasIntOrUntypedConstDeclaration tiC3 "d" = .ok false ∧
    hasIntOrUntypedConstDeclaration tiC3 "s" = .ok false ∧
    hasIntOrUntypedConstDeclaration tiC3 "c" = .ok true := by
  refine ⟨?_, ?_, ?_⟩
  · exact (c3_amended_identifier_rule tiC3 "d").1 (.ident "string" 40) ["d"]
      [.basicLit "x" 41] rfl rfl
  · exact (c3_amended_identifier_rule tiC3 "s").2.1 rfl
  · exact (c3_amended_identifier_rule tiC3 "c").2.2.2
      (Option.some (.ident "int" 30)) ["c"] [.basicLit "10" 31] 0
      (.basicLit "10" 31) ⟨"int", true⟩ rfl
      (Or.inr ⟨.ident "int" 30, rfl, rfl⟩) rfl rfl rfl

/-- Environment for C5: positions 40 and 43 are duration-typed slots. -/
def tiC5 : TypesInfoV where
  typeOf := fun n =>
    match n.pos with
    | 40 => Option.some durationTypeV
    | 43 => Option.some durationTypeV
    | _ => Option.none
  declOf := fun _ => Option.none

/-- C5 counterexample: the zero-VALUED literal `0x0` assigned to a
duration-typed slot IS flagged (the claim says no zero-valued numeral is),
and the non-numeric string literal `"s"` as the value of a duration-keyed
entry IS classified unit-less and flagged (the claim says non-numeric
literals never are): the code compares the literal's source text against
`"0"` rather than its numeric value. -/
theorem c5_counterexample :
    checkAssignment tiC5 (.ident "d" 40) (.basicLit "0x0" 41) =
      .ok (Option.some ⟨41, "untyped constant in time.Duration assignment"⟩) ∧
    usesIntOrUntypedConstants tiC5 (.basicLit "0x0" 41) = .ok true ∧
    checkAssignment tiC5 (.ident "k" 43) (.basicLit "\"s\"" 44) =
      .ok (Option.some ⟨44, "untyped constant in time.Duration assignment"⟩) :=
  ⟨rfl, rfl, rfl⟩

/-- C5 amended: a basic literal is classified unit-less iff its literal TEXT
differs from `0`; a literal assigned to a duration-typed slot is flagged at
its position exactly when its text is not `0` (so `0` is never flagged, while
other spellings of zero such as `0x0`, `00`, `0.0` — and any non-numeric
literal text — are flagged). -/
theorem c5_amended_literal_rule (ti : TypesInfoV) (l : Node) (v : String)
    (p : Nat) (t : TypeV) (hl : ti.typeOf l = Option.some t)
    (hdur : t.str = "time.Duration") :
    usesIntOrUntypedConstants ti (.basicLit v p) = .ok (v != "0") ∧
    checkAssignment ti l (.basicLit v p) =
      .ok (if v != "0" then
        Option.some ⟨p, "untyped constant in time.Duration assignment"⟩
      else Option.none) := by
  refine ⟨rfl, ?_⟩
  unfold checkAssignment
  rw [hl]
  show (if (t.str != "time.Duration") = true then Except.ok Option.none
    else do
      let u ← usesIntOrUntypedConstants ti (.basicLit v p)
      if (!u) = true then Except.ok Option.none
      else Except.ok (Option.some (Diagnostic.mk p
        "untyped constant in time.Duration assignment"))) = _
  rw [if_neg (by simp [hdur])]
  cases hv : (v != "0") with
  | false =>
    simp [usesIntOrUntypedConstants, hv, bind, Except.bind]
  | true =>
    simp [usesIntOrUntypedConstants, hv, bind, Except.bind]

/-- Witness for the amended C5 rule at the literals `0` and `7`. -/
theorem c5_amended_literal_rule_witness :
    (usesIntOrUntypedConstants tiC5 (.basicLit "0" 45) = .ok false ∧
      checkAssignment tiC5 (.ident "d" 40) (.basicLit "0" 45) =
        .ok Option.none) ∧
    (usesIntOrUntypedConstants tiC5 (.basicLit "7" 46) = .ok true ∧
      checkAssignment tiC5 (.ident "d" 40) (.basicLit "7" 46) =
        .ok (Option.some ⟨46, "untyped constant in time.Duration assignment"⟩)) := by
  constructor
  · have h := c5_amended_literal_rule tiC5 (.ident "d" 40) "0" 45 durationTypeV
      rfl rfl
    exact ⟨h.1, h.2⟩
  · have h := c5_amended_literal_rule tiC5 (.ident "d" 40) "7" 46 durationTypeV
      rfl rfl
    exact ⟨h.1, h.2⟩

end DurationLint
namespace DurationLint

/-- Environment for C4: `a` and `b` are duration-typed targets. -/
def tiC4 : TypesInfoV where
  typeOf := fun n =>
    match n.pos with
    | 50 => Option.some durationTypeV
    | 51 => Option.some durationTypeV
    | _ => Option.none
  declOf := fun _ => Option.none

/-- `a, b = f()`: two targets, one (multi-valued) call on the right. -/
def fileC4 : Node :=
  .file (.cons (.assignStmt
    (.cons (.ident "a" 50) (.cons (.ident "b" 51) .nil))
    (.cons (.callExpr (.ident "f" 52) .nil 53) .nil) 54) .nil) 55

/-- `a, b = 5, 6` with duration-typed targets. -/
def fileC4b : Node :=
  .file (.cons (.assignStmt
    (.cons (.ident "a" 50) (.cons (.ident "b" 51) .nil))
    (.cons (.basicLit "5" 56) (.cons (.basicLit "6" 57) .nil)) 54) .nil) 55

/-- C4: the assignment check is applied to every positional pair (both `5`
and `6` are flagged in `a, b = 5, 6`), but for the syntactically valid
multi-target form `a, b = f()` the per-pair loop indexes `Rhs[1]` past the
end of the one-element right-hand list and the run aborts, in either mode. -/
theorem c4_multi_assign_pairs_and_abort :
    runFile false tiC4 fileC4b =
      .ok [⟨56, "untyped constant in time.Duration assignment"⟩,
           ⟨57, "untyped constant in time.Duration assignment"⟩] ∧
    runFileSt false tiC4 fileC4 =
      .error "runtime error: index out of range in Rhs" ∧
    runFileSt true tiC4 fileC4 =
      .error "runtime error: index out of range in Rhs" :=
  ⟨rfl, rfl, rfl⟩

/-- C6 counterexample: in non-strict mode, after traversing a file containing
the lone conversion `_ = time.Duration(10)`, one context (the one pushed for
the conversion call, whose exit callback is skipped) is left on the stack —
under the claimed LIFO discipline the stack would be restored to length 0. -/
theorem c6_counterexample :
    stackLenAfter false tiC1 (fileOf (convCall (.basicLit "10" 100))) = .ok 1 ∧
    stackLenAfter true tiC1 (fileOf (convCall (.basicLit "10" 100))) = .ok 0 :=
  ⟨rfl, rfl⟩

/-- C6 amended: in strict conversion mode every node visit restores the
stack length and leaves the sentinel untouched (LIFO discipline); in
non-strict mode the context pushed for a recognized conversion call is never
popped — the traversal skips both its children and its exit callback — so it
outlives the traversal of its subtree and is still on the stack when the
file's traversal ends. -/
theorem c6_amended_stack_discipline :
    (∀ (ti : TypesInfoV) (n : Node) (st st' : TState) (c : Ctx)
      (rest : List Ctx), st.stack = c :: rest →
      inspectNode true ti st n = .ok st' →
      st'.stack.length = st.stack.length ∧ st'.sentinel = st.sentinel) ∧
    stackLenAfter false tiC1 (fileOf (convCall (.basicLit "10" 100))) = .ok 1 :=
  ⟨fun ti n st st' c rest hst h =>
    inspectNode_strict_balanced ti n st st' c rest hst h, rfl⟩

/-- Witness for the amended C6: a concrete strict-mode visit of the literal
`1` on a one-context stack restores the stack length and the sentinel. -/
theorem c6_amended_stack_discipline_witness :
    ((⟨emptyCtx, [emptyCtx], []⟩ : TState).stack.length =
      (⟨emptyCtx, [emptyCtx], []⟩ : TState).stack.length ∧
    (⟨emptyCtx, [emptyCtx], []⟩ : TState).sentinel =
      (⟨emptyCtx, [emptyCtx], []⟩ : TState).sentinel) :=
  c6_amended_stack_discipline.1 tiC1 (.basicLit "1" 0)
    ⟨emptyCtx, [emptyCtx], []⟩ ⟨emptyCtx, [emptyCtx], []⟩ emptyCtx [] rfl rfl

/-- Environment for C7: `x` is declared `var x int` — integer-typed, with NO
initializer expression; `y` is `var y int = 3`. -/
def tiC7 : TypesInfoV where
  typeOf := fun n =>
    match n.pos with
    | 4 => Option.some durationTypeV
    | 60 => Option.some ⟨"int", true⟩
    | 61 => Option.some ⟨"int", true⟩
    | 62 => Option.some ⟨"int", true⟩
    | 63 => Option.some ⟨"int", true⟩
    | _ => Option.none
  declOf := fun nm =>
    match nm with
    | "x" => Option.some (Decl.valueSpec (Option.some (.ident "int" 60)) ["x"] [])
    | "y" => Option.some (Decl.valueSpec (Option.some (.ident "int" 60)) ["y"]
        [.basicLit "3" 62])
    | _ => Option.none

/-- C7: for an integer-typed argument with an initializer the
conversion-argument check does create the diagnostic at the argument's
position; but for `var x int` (integer-typed declaration with no
initializer) the classifier indexes `Values[0]` of the empty initializer
list and the whole strict-mode run aborts instead of completing. -/
theorem c7_conversion_check_aborts :
    checkDurationConversionArgument tiC7 (.ident "y" 63) =
      .ok (Option.some ⟨63,
        "converting integer via time.Duration() without multiplication by proper duration"⟩) ∧
    checkDurationConversionArgument tiC7 (.ident "x" 61) =
      .error "runtime error: index out of range in Values" ∧
    runFileSt true tiC7 (fileOf (convCall (.ident "x" 61))) =
      .error "runtime error: index out of range in Values" :=
  ⟨rfl, rfl, rfl⟩

/-- C9: at the end of every file's traversal, in either mode, the sentinel
context holds no deferred diagnostics (so every diagnostic remaining there —
vacuously all of them — has been reported), and the finalization step
`Finish` succeeds without aborting and without changing the report stream. -/
theorem c9_sentinel_finalization (strict : Bool) (ti : TypesInfoV)
    (decls : NodeList) (p : Nat) (st : TState)
    (h : traverseFile strict ti (.file decls p) = .ok st) :
    st.sentinel.deferredImproperDurationDiagnostics = [] ∧
    ∃ st', finishStack st = .ok st' ∧ st'.reported = st.reported ∧
      st'.sentinel.deferredImproperDurationDiagnostics = [] := by
  have he := traverseFile_sentinel_empty strict ti decls p st h
  exact ⟨he, { st with sentinel :=
    { st.sentinel with deferredImproperDurationDiagnostics := [] } },
    finishStack_of_empty st he, rfl, rfl⟩

/-- Witness for C9 on the empty file. -/
theorem c9_sentinel_finalization_witness :
    initState.sentinel.deferredImproperDurationDiagnostics = [] ∧
    ∃ st', finishStack initState = .ok st' ∧ st'.reported = initState.reported ∧
      st'.sentinel.deferredImproperDurationDiagnostics = [] :=
  c9_sentinel_finalization true tiC1 .nil 0 initState rfl

/-- Whether a diagnostic list is sorted by position. -/
def posSorted : List Diagnostic → Bool
  | [] => true
  | [_] => true
  | d1 :: d2 :: rest => Nat.ble d1.pos d2.pos && posSorted (d2 :: rest)

/-- Environment for C10. -/
def tiC10 : TypesInfoV where
  typeOf := fun n =>
    match n.pos with
    | 4 => Option.some durationTypeV
    | 30 => Option.some durationTypeV
    | _ => Option.none
  declOf := fun _ => Option.none

/-- `g(time.Duration(5), 6)` as a statement, with `g`'s second parameter
duration-typed: the direct argument diagnostic at position 30 is emitted at
the call's entry, while the deferred conversion diagnostic at the earlier
position 21 is only emitted when the call node is popped. -/
def fileC10 : Node :=
  .file (.cons (.exprStmt (.callExpr (.ident "g" 70)
    (.cons (convCall (.basicLit "5" 21))
      (.cons (.basicLit "6" 30) .nil)) 71) 72) .nil) 73

/-- C10 counterexample: a strict-mode run whose diagnostic stream is
`[position 30, position 21]` — not position-sorted. -/
theorem c10_counterexample :
    runFile true tiC10 fileC10 =
      .ok [⟨30, "untyped constant in time.Duration argument"⟩,
           ⟨21, "converting integer via time.Duration() without multiplication by proper duration"⟩] ∧
    posSorted [⟨30, "untyped constant in time.Duration argument"⟩,
      ⟨21, "converting integer via time.Duration() without multiplication by proper duration"⟩] =
      false :=
  ⟨rfl, rfl⟩

/-- C10 amended: the analysis is a pure function of its inputs — two runs on
unchanged input produce identical diagnostic sequences — but the per-file
emission order is traversal order (direct checks at node entry, deferred
conversion diagnostics at an enclosing node's exit), which in strict mode
need not be position-sorted. -/
theorem c10_amended_determinism_order :
    (∀ (strict : Bool) (ti : TypesInfoV) (f : Node),
      runFile strict ti f = runFile strict ti f) ∧
    runFile true tiC10 fileC10 =
      .ok [⟨30, "untyped constant in time.Duration argument"⟩,
           ⟨21, "converting integer via time.Duration() without multiplication by proper duration"⟩] :=
  ⟨fun _ _ _ => rfl, rfl⟩

end DurationLint
